import Mathlib

/-!
Verification of the tabular cleaning engine of `etl-toolbox`
(`etl_toolbox/cleaning_functions.py` and `etl_toolbox/dataframe_functions.py`)
against its natural-language specification.

The Python code operates on dynamically typed values and on
`pandas.DataFrame`s.  The shallow embedding models:

* Python values by the inductive type `PyVal` (the constructors cover the
  value shapes the library manipulates: `None`, `float('nan')` — the absence
  marker used by the orchestrator —, booleans, integers, strings, lists,
  tuples, sets and dicts).  Sets and dicts are modelled as lists of their
  elements in iteration order; Python's `str()` of a set/dict prints that
  iteration order, so this is a determinization of the source semantics.
* `pandas.DataFrame` by the structure `DataFrame`: a row index (a list of
  values plus an optional index name), a list of column labels, and the
  cell grid in row-major order.  `DataFrame.Wf` states the rectangularity
  invariants that hold for every real `pandas` frame.
* In-place mutation by pure functions returning the new frame; a Python
  function that raises is modelled with `Except`, the error carrying the
  state the mutated argument is left in when the exception propagates.
-/

namespace EtlSpec

/-- Model of the Python values handled by the library: `None`, `float('nan')`
(`np.nan`), `bool`, `int`, `str`, `list`, `tuple`, `set` and `dict`.
Floats other than `nan` are not modelled; none of the verified claims
involves them. -/
inductive PyVal where
  | vNone
  | vNan
  | vBool (b : Bool)
  | vInt (n : Int)
  | vStr (s : String)
  | vList (xs : List PyVal)
  | vTuple (xs : List PyVal)
  | vSet (xs : List PyVal)
  | vDict (ps : List (PyVal × PyVal))

open PyVal

mutual

/-- Boolean equality on `PyVal`, used to build the `DecidableEq` instance
(the automatic derivation does not support this nested inductive type). -/
def pyBeq : PyVal → PyVal → Bool
  | vNone, vNone => true
  | vNan, vNan => true
  | vBool a, vBool b => a == b
  | vInt a, vInt b => a == b
  | vStr a, vStr b => a == b
  | vList a, vList b => pyBeqList a b
  | vTuple a, vTuple b => pyBeqList a b
  | vSet a, vSet b => pyBeqList a b
  | vDict a, vDict b => pyBeqPairs a b
  | _, _ => false

/-- Elementwise `pyBeq` on lists. -/
def pyBeqList : List PyVal → List PyVal → Bool
  | [], [] => true
  | x :: xs, y :: ys => pyBeq x y && pyBeqList xs ys
  | _, _ => false

/-- Elementwise `pyBeq` on key/value pair lists. -/
def pyBeqPairs : List (PyVal × PyVal) → List (PyVal × PyVal) → Bool
  | [], [] => true
  | (k1, v1) :: ps, (k2, v2) :: qs => pyBeq k1 k2 && pyBeq v1 v2 && pyBeqPairs ps qs
  | _, _ => false

end

mutual

theorem pyBeq_iff : ∀ a b : PyVal, pyBeq a b = true ↔ a = b
  | vNone, b => by cases b <;> simp [pyBeq]
  | vNan, b => by cases b <;> simp [pyBeq]
  | vBool _, b => by cases b <;> simp [pyBeq]
  | vInt _, b => by cases b <;> simp [pyBeq]
  | vStr _, b => by cases b <;> simp [pyBeq]
  | vList xs, b => by
      cases b <;> simp [pyBeq, pyBeqList_iff xs _]
  | vTuple xs, b => by
      cases b <;> simp [pyBeq, pyBeqList_iff xs _]
  | vSet xs, b => by
      cases b <;> simp [pyBeq, pyBeqList_iff xs _]
  | vDict ps, b => by
      cases b <;> simp [pyBeq, pyBeqPairs_iff ps _]

theorem pyBeqList_iff : ∀ as bs : List PyVal, pyBeqList as bs = true ↔ as = bs
  | [], [] => by simp [pyBeqList]
  | x :: xs, y :: ys => by
      simp [pyBeqList, pyBeq_iff x y, pyBeqList_iff xs ys]
  | [], _ :: _ => by simp [pyBeqList]
  | _ :: _, [] => by simp [pyBeqList]

theorem pyBeqPairs_iff : ∀ ps qs : List (PyVal × PyVal), pyBeqPairs ps qs = true ↔ ps = qs
  | [], [] => by simp [pyBeqPairs]
  | (k1, v1) :: ps, (k2, v2) :: qs => by
      simp [pyBeqPairs, pyBeq_iff k1 k2, pyBeq_iff v1 v2, pyBeqPairs_iff ps qs,
        and_assoc, Prod.ext_iff]
  | [], _ :: _ => by simp [pyBeqPairs]
  | _ :: _, [] => by simp [pyBeqPairs]

end

instance : DecidableEq PyVal := fun a b => decidable_of_iff (pyBeq a b = true) (pyBeq_iff a b)

mutual

/-- Model of Python `repr()` restricted to `PyVal`.  String `repr` is
simplified to single quotes without escape processing; container `repr`s
follow CPython's formatting (`[a, b]`, `(a,)`, `{a, b}` / `set()`,
`{k: v}`). -/
def pyRepr : PyVal → String
  | vNone => "None"
  | vNan => "nan"
  | vBool b => if b then "True" else "False"
  | vInt n => toString n
  | vStr s => "'" ++ s ++ "'"
  | vList xs => "[" ++ String.intercalate ", " (pyReprList xs) ++ "]"
  | vTuple xs =>
      let rs := pyReprList xs
      match rs with
      | [r] => "(" ++ r ++ ",)"
      | _ => "(" ++ String.intercalate ", " rs ++ ")"
  | vSet xs =>
      let rs := pyReprList xs
      match rs with
      | [] => "set()"
      | _ => "\x7b" ++ String.intercalate ", " rs ++ "\x7d"
  | vDict ps => "\x7b" ++ String.intercalate ", " (pyReprPairs ps) ++ "\x7d"

/-- `pyRepr` of each element of a list. -/
def pyReprList : List PyVal → List String
  | [] => []
  | x :: xs => pyRepr x :: pyReprList xs

/-- `repr(key) ++ ": " ++ repr(value)` for each dict entry. -/
def pyReprPairs : List (PyVal × PyVal) → List String
  | [] => []
  | (k, v) :: ps => (pyRepr k ++ ": " ++ pyRepr v) :: pyReprPairs ps

end

/-- Model of Python `str()`: identity on strings, `repr`-based otherwise
(`str(float('nan')) = "nan"`, `str(None) = "None"`, containers print via
their `repr`). -/
def pyStr : PyVal → String
  | vStr s => s
  | x => pyRepr x

/-- A character survives the fingerprint filter `re.sub(r'[^0-9a-z{sp}]', ...)`
iff it is an ASCII digit, an ASCII lowercase letter, or one of the
`special_characters`. -/
def keepChar (special_characters : String) (c : Char) : Bool :=
  c.isDigit || c.isLower || special_characters.data.contains c

/-- `fingerprint(x, special_characters)` from `cleaning_functions.py`:
`re.sub(r'[^0-9a-z{}]'.format(re.escape(special_characters)), '', str(x).lower())`.
The embedding maps `str(x)` through `Char.toLower` (Python's `str.lower`
restricted to ASCII) and keeps exactly the characters `keepChar` accepts. -/
def fingerprint (x : PyVal) (special_characters : String := "") : String :=
  String.mk (((pyStr x).data.map Char.toLower).filter (keepChar special_characters))

/-- `NULL_INDICATORS` from `cleaning_functions.py`. -/
def NULL_INDICATORS : List String :=
  ["", "blank", "blocked", "empty", "invalid", "na", "nan", "nbsp", "none",
   "notavailable", "notset", "np", "null", "removed", "unavailable",
   "unidentified", "unknown"]

/-- `FALSEY_INDICATORS` from `cleaning_functions.py`. -/
def FALSEY_INDICATORS : List String := ["false", "0"]

theorem char_toNat_ofNat_of_lt (m : Nat) (h : m < 55296) : (Char.ofNat m).toNat = m := by
  rw [Char.ofNat, dif_pos (Or.inl h)]
  simp [Char.ofNatAux, Char.toNat, UInt32.ofNat', UInt32.toNat, BitVec.toNat_ofNatLt]

theorem toLower_idem (c : Char) : Char.toLower (Char.toLower c) = Char.toLower c := by
  unfold Char.toLower
  by_cases h : c.toNat ≥ 65 ∧ c.toNat ≤ 90
  · rw [if_pos h]
    have h2 : (Char.ofNat (c.toNat + 32)).toNat = c.toNat + 32 :=
      char_toNat_ofNat_of_lt _ (by omega)
    rw [if_neg (by omega)]
  · rw [if_neg h, if_neg h]

theorem mem_fingerprint_keep {x : PyVal} {sp : String} {c : Char}
    (h : c ∈ (fingerprint x sp).data) : keepChar sp c = true := by
  have h' : c ∈ ((pyStr x).data.map Char.toLower).filter (keepChar sp) := h
  exact (List.mem_filter.mp h').2

theorem fingerprint_chars_lower {x : PyVal} {sp : String} {c : Char}
    (h : c ∈ (fingerprint x sp).data) : Char.toLower c = c := by
  have h' : c ∈ ((pyStr x).data.map Char.toLower).filter (keepChar sp) := h
  have hmem : c ∈ ((pyStr x).data.map Char.toLower) := List.mem_of_mem_filter h'
  obtain ⟨c0, _, rfl⟩ := List.mem_map.mp hmem
  exact toLower_idem c0

theorem map_eq_self_of {α : Type} (f : α → α) :
    ∀ l : List α, (∀ a ∈ l, f a = a) → l.map f = l
  | [], _ => rfl
  | x :: xs, h => by
      rw [List.map_cons, h x (by simp), map_eq_self_of f xs (fun a ha => h a (by simp [ha]))]

/-- Re-fingerprinting a fingerprint is the identity. -/
theorem fingerprint_idem (x : PyVal) (sp : String) :
    fingerprint (vStr (fingerprint x sp)) sp = fingerprint x sp := by
  have hmap : (fingerprint x sp).data.map Char.toLower = (fingerprint x sp).data := by
    apply map_eq_self_of
    intro c hc
    exact fingerprint_chars_lower hc
  have hfilter : (fingerprint x sp).data.filter (keepChar sp) = (fingerprint x sp).data := by
    apply List.filter_eq_self.mpr
    intro c hc
    exact mem_fingerprint_keep hc
  show String.mk (((pyStr (vStr (fingerprint x sp))).data.map Char.toLower).filter
      (keepChar sp)) = fingerprint x sp
  rw [show pyStr (vStr (fingerprint x sp)) = fingerprint x sp from rfl, hmap, hfilter]

/-- C7: for every value and every `allowed_specials` string, the fingerprint
contains only ASCII digits, ASCII lowercase letters and characters of
`allowed_specials`, and fingerprinting is idempotent. -/
theorem fingerprint_alphabet_and_idempotent (x : PyVal) (sp : String) :
    (∀ c ∈ (fingerprint x sp).data,
        c.isDigit = true ∨ c.isLower = true ∨ c ∈ sp.data) ∧
      fingerprint (vStr (fingerprint x sp)) sp = fingerprint x sp := by
  constructor
  · intro c hc
    have h := mem_fingerprint_keep hc
    unfold keepChar at h
    rcases Bool.or_eq_true_iff.mp h with h1 | h2
    · rcases Bool.or_eq_true_iff.mp h1 with hd | hl
      · exact Or.inl hd
      · exact Or.inr (Or.inl hl)
    · exact Or.inr (Or.inr (by simpa using h2))
  · exact fingerprint_idem x sp

/-- Python truthiness: `not x` is true exactly on `None`, `False`, zero and
empty sized containers; `float('nan')` is truthy. -/
def isFalsey : PyVal → Bool
  | vNone => true
  | vNan => false
  | vBool b => !b
  | vInt n => n == 0
  | vStr s => s.isEmpty
  | vList xs => xs.isEmpty
  | vTuple xs => xs.isEmpty
  | vSet xs => xs.isEmpty
  | vDict ps => ps.isEmpty

/-- Python `len()` for `collections.abc.Sized` values; `none` for values with
no length (`None`, numbers, `nan`). -/
def pyLen : PyVal → Option Nat
  | vStr s => some s.length
  | vList xs => some xs.length
  | vTuple xs => some xs.length
  | vSet xs => some xs.length
  | vDict ps => some ps.length
  | _ => none

/-- Iteration order of a non-string `collections.abc.Iterable`: lists, tuples
and sets yield their elements, dicts yield their keys.  Strings are excluded,
exactly as in the source (`isinstance(x, Iterable) and not isinstance(x, str)`). -/
def pyIterNonStr : PyVal → Option (List PyVal)
  | vList xs => some xs
  | vTuple xs => some xs
  | vSet xs => some xs
  | vDict ps => some (ps.map Prod.fst)
  | _ => none

/-- `pandas.isnull` on a cell: true exactly for `None` and `nan`. -/
def isNA : PyVal → Bool
  | vNone => true
  | vNan => true
  | _ => false

/-- The guard `x[:1] in ('[','{','(') or x[1:2] in ('"',"'")` that decides
whether `clean_null` attempts `ast.literal_eval` on a string. -/
def litTrigger (s : String) : Bool :=
  (s.data.headD ' ' = '[' || s.data.headD ' ' = '{' || s.data.headD ' ' = '(') ||
    ((s.data.drop 1).headD ' ' = '\'' || (s.data.drop 1).headD ' ' = '"')

/-- Whitespace skipping inside a literal being parsed. -/
def skipSpaces : List Char → List Char
  | [] => []
  | c :: cs => if c = ' ' ∨ c = '\t' ∨ c = '\n' ∨ c = '\r' then skipSpaces cs else c :: cs

/-- Scan the body of a quoted string literal up to the closing quote `q`.
Backslash escapes and embedded newlines are not modelled (the parse fails,
which in `clean_null` makes the literal rule contribute nothing). -/
def scanString (q : Char) : List Char → Option (List Char × List Char)
  | [] => none
  | c :: cs =>
      if c = q then some ([], cs)
      else if c = '\\' ∨ c = '\n' then none
      else
        match scanString q cs with
        | some (str, r) => some (c :: str, r)
        | none => none

/-- Numeric value of a run of ASCII digits. -/
def digitsToNat (ds : List Char) : Nat :=
  ds.foldl (fun a c => a * 10 + (c.toNat - 48)) 0

/-- Characters that, directly after a run of digits, mean the token is not a
plain decimal integer (float, complex, or a non-decimal base — all of which
this model declines to parse). -/
def nonIntFollower (c : Char) : Bool :=
  c = '.' || c = 'e' || c = 'E' || c = 'j' || c = 'x' || c = 'X' || c = 'o' ||
    c = 'O' || c = 'b' || c = 'B' || c = '_' || c.isDigit


/-- Parse a quoted string literal body (the opening quote is already
consumed). -/
def parseQuoted (q : Char) (cs : List Char) : Option (PyVal × List Char) :=
  match scanString q cs with
  | some (str, r) => some (vStr (String.mk str), r)
  | none => none

/-- Parse a decimal integer literal. -/
def parseNum (cs : List Char) : Option (PyVal × List Char) :=
  let ds := cs.takeWhile Char.isDigit
  let r := cs.dropWhile Char.isDigit
  if ds.isEmpty then none
  else if nonIntFollower (r.headD ' ') then none
  else some (vInt (digitsToNat ds : Int), r)

/-- Parse a negated decimal integer literal (the minus sign is already
consumed). -/
def parseNegNum (cs : List Char) : Option (PyVal × List Char) :=
  match parseNum cs with
  | some (vInt m, r) => some (vInt (-m), r)
  | _ => none

/-- Parse the keyword literals `None`, `True`, `False`. -/
def parseKeyword (cs : List Char) : Option (PyVal × List Char) :=
  if "None".data.isPrefixOf cs then some (vNone, cs.drop 4)
  else if "True".data.isPrefixOf cs then some (vBool true, cs.drop 4)
  else if "False".data.isPrefixOf cs then some (vBool false, cs.drop 5)
  else none

/-- Wrap the items of a parenthesized display: `(v)` is the parenthesized
value itself, `(v,)`, `()` and `(v, w, …)` are tuples. -/
def parenWrap : Option (List PyVal × Bool × List Char) → Option (PyVal × List Char)
  | some ([v], false, r) => some (v, r)
  | some (vs, _, r) => some (vTuple vs, r)
  | none => none

mutual

/-- Model of `ast.literal_eval`'s grammar over the shapes `clean_null` meets:
`None`/`True`/`False`, decimal integers, quoted strings, and (nested) list,
tuple, set and dict displays.  Prefixed strings (`u'…'`, `b'…'`), floats,
non-decimal integer bases, implicit string concatenation and escape
sequences are not modelled: on those the parse fails, which makes the
literal rule of `clean_null` contribute nothing.  The fuel argument
strictly decreases on every recursive call; `literal_eval` supplies
`s.length + 1`, which is ample because every level of nesting consumes at
least one character. -/
def parseVal : Nat → List Char → Option (PyVal × List Char)
  | 0, _ => none
  | n + 1, cs =>
      match skipSpaces cs with
      | [] => none
      | c :: rest =>
          if c = '[' then
            match parseItems n ']' rest with
            | some (vs, _, r) => some (vList vs, r)
            | none => none
          else if c = '(' then parenWrap (parseItems n ')' rest)
          else if c = '{' then parseBraced n rest
          else if c = '\'' ∨ c = '"' then parseQuoted c rest
          else if c = '-' then parseNegNum rest
          else if c.isDigit then parseNum (c :: rest)
          else parseKeyword (c :: rest)

/-- Parse the inside of a `{…}` display: the empty dict, a set display, or a
dict display. -/
def parseBraced : Nat → List Char → Option (PyVal × List Char)
  | 0, _ => none
  | n + 1, cs =>
      match skipSpaces cs with
      | [] => none
      | c1 :: rest1 =>
          if c1 = '}' then some (vDict [], rest1)
          else
            match parseVal n (c1 :: rest1) with
            | none => none
            | some (v, r1) =>
                match skipSpaces r1 with
                | [] => none
                | c2 :: rest2 =>
                    if c2 = ':' then
                      match parseVal n rest2 with
                      | none => none
                      | some (w, r3) =>
                          match parseDictTail n r3 with
                          | some (ps, r4) => some (vDict ((v, w) :: ps), r4)
                          | none => none
                    else if c2 = ',' then
                      match parseItems n '}' rest2 with
                      | some (vs, _, r3) => some (vSet (v :: vs), r3)
                      | none => none
                    else if c2 = '}' then some (vSet [v], rest2)
                    else none

/-- Comma-separated values up to (and consuming) the closing bracket
`close`; the returned flag records whether the last item carried a
trailing comma (which distinguishes `(v,)` from `(v)`). -/
def parseItems : Nat → Char → List Char → Option (List PyVal × Bool × List Char)
  | 0, _, _ => none
  | n + 1, close, cs =>
      match skipSpaces cs with
      | [] => none
      | c :: rest =>
          if c = close then some ([], false, rest)
          else
            match parseVal n (c :: rest) with
            | none => none
            | some (v, r1) =>
                match skipSpaces r1 with
                | [] => none
                | c2 :: rest2 =>
                    if c2 = close then some ([v], false, rest2)
                    else if c2 = ',' then
                      match parseItems n close rest2 with
                      | some ([], _, r3) => some ([v], true, r3)
                      | some (vs, t, r3) => some (v :: vs, t, r3)
                      | none => none
                    else none

/-- Dict entries after the first `key: value` pair: either the closing brace
or `, key: value` repeated (with optional trailing comma). -/
def parseDictTail : Nat → List Char → Option (List (PyVal × PyVal) × List Char)
  | 0, _ => none
  | n + 1, cs =>
      match skipSpaces cs with
      | [] => none
      | c :: rest =>
          if c = '}' then some ([], rest)
          else if c = ',' then
            match skipSpaces rest with
            | [] => none
            | c1 :: rest1 =>
                if c1 = '}' then some ([], rest1)
                else
                  match parseVal n (c1 :: rest1) with
                  | none => none
                  | some (k, r1) =>
                      match skipSpaces r1 with
                      | [] => none
                      | c2 :: rest2 =>
                          if c2 = ':' then
                            match parseVal n rest2 with
                            | none => none
                            | some (w, r3) =>
                                match parseDictTail n r3 with
                                | some (ps, r4) => some ((k, w) :: ps, r4)
                                | none => none
                          else none
          else none

end

/-- `ast.literal_eval` as used by `clean_null`: parse the whole string
(leading whitespace cannot occur at the call sites, trailing whitespace is
tolerated); any leftover input is a parse failure. -/
def literal_eval (s : String) : Option PyVal :=
  match parseVal (s.length + 1) s.data with
  | some (v, rest) => if skipSpaces rest = [] then some v else none
  | none => none

mutual

/-- Structural size of a value; the length of a string counts towards its
weight so that a value parsed out of a string is smaller than the string.
This is the fuel measure for `clean_null`'s recursion. -/
def pyWeight : PyVal → Nat
  | vNone => 1
  | vNan => 1
  | vBool _ => 1
  | vInt _ => 1
  | vStr s => 1 + s.length
  | vList xs => 1 + pyWeightList xs
  | vTuple xs => 1 + pyWeightList xs
  | vSet xs => 1 + pyWeightList xs
  | vDict ps => 1 + pyWeightPairs ps

/-- Total weight of a list of values. -/
def pyWeightList : List PyVal → Nat
  | [] => 0
  | x :: xs => pyWeight x + pyWeightList xs

/-- Total weight of a list of key/value pairs. -/
def pyWeightPairs : List (PyVal × PyVal) → Nat
  | [] => 0
  | (k, v) :: ps => pyWeight k + pyWeight v + pyWeightPairs ps

end

theorem pyWeight_pos : ∀ v : PyVal, 1 ≤ pyWeight v := by
  intro v
  cases v <;> simp [pyWeight]

theorem pyWeight_le_of_mem {e : PyVal} : ∀ {xs : List PyVal}, e ∈ xs → pyWeight e ≤ pyWeightList xs
  | [], h => by simp at h
  | x :: xs, h => by
      rcases List.mem_cons.mp h with rfl | h'
      · simp [pyWeightList]
      · have := pyWeight_le_of_mem h'
        simp [pyWeightList]
        omega

theorem pyWeightList_fst_le : ∀ ps : List (PyVal × PyVal),
    pyWeightList (ps.map Prod.fst) ≤ pyWeightPairs ps
  | [] => le_refl _
  | (k, v) :: ps => by
      have := pyWeightList_fst_le ps
      have := pyWeight_pos v
      simp [pyWeightList, pyWeightPairs]
      omega

theorem skipSpaces_length : ∀ cs : List Char, (skipSpaces cs).length ≤ cs.length
  | [] => le_refl _
  | c :: cs => by
      rw [skipSpaces]
      split
      · have := skipSpaces_length cs
        simp
        omega
      · simp

theorem scanString_length {q : Char} :
    ∀ {cs str r : List Char}, scanString q cs = some (str, r) →
      str.length + 1 + r.length = cs.length
  | [], str, r, h => by simp [scanString] at h
  | c :: cs, str, r, h => by
      rw [scanString] at h
      split at h
      · simp at h
        obtain ⟨rfl, rfl⟩ := h
        simp
        omega
      · split at h
        · simp at h
        · rcases hrec : scanString q cs with _ | ⟨s1, r1⟩
          · rw [hrec] at h
            simp at h
          · rw [hrec] at h
            simp at h
            obtain ⟨rfl, rfl⟩ := h
            have := scanString_length hrec
            simp
            omega


theorem parseQuoted_bound {q : Char} {cs : List Char} {v : PyVal} {r : List Char}
    (h : parseQuoted q cs = some (v, r)) : pyWeight v + r.length ≤ cs.length + 1 := by
  unfold parseQuoted at h
  rcases hscan : scanString q cs with _ | ⟨str, r1⟩ <;> rw [hscan] at h <;> try dsimp only at h
  · simp at h
  · simp at h
    obtain ⟨rfl, rfl⟩ := h
    have hb := scanString_length hscan
    simp [pyWeight, String.length]
    omega

theorem parseNum_bound {cs : List Char} {v : PyVal} {r : List Char}
    (h : parseNum cs = some (v, r)) : pyWeight v + r.length ≤ cs.length := by
  unfold parseNum at h
  dsimp only at h
  split_ifs at h with h1 h2
  all_goals simp at h
  obtain ⟨rfl, rfl⟩ := h
  have hlen : (cs.takeWhile Char.isDigit).length + (cs.dropWhile Char.isDigit).length
      = cs.length := by
    rw [← List.length_append, List.takeWhile_append_dropWhile]
  have hne : (cs.takeWhile Char.isDigit).length ≠ 0 := by
    intro h0
    apply h1
    simpa [List.isEmpty_iff] using List.length_eq_zero.mp h0
  simp [pyWeight]
  omega

theorem parseNegNum_bound {cs : List Char} {v : PyVal} {r : List Char}
    (h : parseNegNum cs = some (v, r)) : pyWeight v + r.length ≤ cs.length := by
  unfold parseNegNum at h
  rcases hn : parseNum cs with _ | ⟨w, r1⟩ <;> rw [hn] at h <;> try dsimp only at h
  · simp at h
  · have hb := parseNum_bound hn
    rcases w with _ | _ | _ | m | _ | _ | _ | _ | _ <;> simp at h
    obtain ⟨rfl, rfl⟩ := h
    simpa [pyWeight] using hb

theorem parseKeyword_bound {cs : List Char} {v : PyVal} {r : List Char}
    (h : parseKeyword cs = some (v, r)) : pyWeight v + r.length ≤ cs.length := by
  unfold parseKeyword at h
  split_ifs at h with h1 h2 h3 <;> simp at h
  · obtain ⟨rfl, rfl⟩ := h
    have hp : 4 ≤ cs.length := (List.isPrefixOf_iff_prefix.mp h1).length_le
    simp [pyWeight]
    omega
  · obtain ⟨rfl, rfl⟩ := h
    have hp : 4 ≤ cs.length := (List.isPrefixOf_iff_prefix.mp h2).length_le
    simp [pyWeight]
    omega
  · obtain ⟨rfl, rfl⟩ := h
    have hp : 5 ≤ cs.length := (List.isPrefixOf_iff_prefix.mp h3).length_le
    simp [pyWeight]
    omega

mutual

/-- A parsed value, together with the unconsumed input, weighs no more than
the input it was parsed from: parsing consumes at least as many characters
as the weight of the value it builds. -/
theorem parseVal_bound : ∀ (n : Nat) (cs : List Char) (v : PyVal) (r : List Char),
    parseVal n cs = some (v, r) → pyWeight v + r.length ≤ cs.length
  | 0, cs, v, r => by simp [parseVal]
  | n + 1, cs, v, r => by
      intro h
      have hss : (skipSpaces cs).length ≤ cs.length := skipSpaces_length cs
      rw [parseVal] at h
      rcases hcs : skipSpaces cs with _ | ⟨c, rest⟩ <;> rw [hcs] at h
      · simp at h
      · rw [hcs] at hss
        simp at hss
        dsimp only at h
        split_ifs at h with h1 h2 h3 h4 h5 h6
        · rcases hpi : parseItems n ']' rest with _ | ⟨vs, t, r3⟩ <;> rw [hpi] at h <;> try dsimp only at h
          · simp at h
          · simp at h
            obtain ⟨rfl, rfl⟩ := h
            have hb := parseItems_bound _ _ _ _ _ _ hpi
            simp [pyWeight]
            omega
        · rcases hpi : parseItems n ')' rest with _ | ⟨vs, t, r3⟩ <;> rw [hpi] at h <;> try dsimp only at h
          · simp [parenWrap] at h
          · have hb := parseItems_bound _ _ _ _ _ _ hpi
            rcases vs with _ | ⟨v1, vs1⟩
            · simp [parenWrap] at h
              obtain ⟨rfl, rfl⟩ := h
              simp [pyWeight, pyWeightList] at hb ⊢
              omega
            · rcases vs1 with _ | ⟨v2, vs2⟩
              · rcases t with _ | _
                · simp [parenWrap] at h
                  obtain ⟨rfl, rfl⟩ := h
                  simp [pyWeightList] at hb
                  omega
                · simp [parenWrap] at h
                  obtain ⟨rfl, rfl⟩ := h
                  simp [pyWeight, pyWeightList] at hb ⊢
                  omega
              · simp [parenWrap] at h
                obtain ⟨rfl, rfl⟩ := h
                simp [pyWeight, pyWeightList] at hb ⊢
                omega
        · have hb := parseBraced_bound _ _ _ _ h
          omega
        · have hb := parseQuoted_bound h
          omega
        · have hb := parseNegNum_bound h
          omega
        · have hb := parseNum_bound h
          simp at hb
          omega
        · have hb := parseKeyword_bound h
          simp at hb
          omega

/-- Bound for `parseBraced`: one extra character (the opening brace, already
consumed by the caller) covers the node cost of the set/dict constructor. -/
theorem parseBraced_bound : ∀ (n : Nat) (cs : List Char) (v : PyVal) (r : List Char),
    parseBraced n cs = some (v, r) → pyWeight v + r.length ≤ cs.length + 1
  | 0, cs, v, r => by simp [parseBraced]
  | n + 1, cs, v, r => by
      intro h
      have hss : (skipSpaces cs).length ≤ cs.length := skipSpaces_length cs
      rw [parseBraced] at h
      rcases hcs : skipSpaces cs with _ | ⟨c1, rest1⟩ <;> rw [hcs] at h
      · simp at h
      · rw [hcs] at hss
        simp at hss
        dsimp only at h
        split_ifs at h with hc1
        · simp at h
          obtain ⟨rfl, rfl⟩ := h
          simp [pyWeight, pyWeightPairs]
          omega
        · rcases hv1 : parseVal n (c1 :: rest1) with _ | ⟨v1, r1⟩ <;> rw [hv1] at h <;> try dsimp only at h
          · simp at h
          · have hb1 := parseVal_bound _ _ _ _ hv1
            simp at hb1
            rcases hcs3 : skipSpaces r1 with _ | ⟨c2, rest2⟩ <;> rw [hcs3] at h <;> try dsimp only at h
            · simp at h
            · have hss3 : (skipSpaces r1).length ≤ r1.length := skipSpaces_length r1
              rw [hcs3] at hss3
              simp at hss3
              split_ifs at h with hc2 hc3 hc4
              · rcases hw : parseVal n rest2 with _ | ⟨w, r3⟩ <;> rw [hw] at h <;> try dsimp only at h
                · simp at h
                · rcases hdt : parseDictTail n r3 with _ | ⟨ps, r4⟩ <;> rw [hdt] at h <;> try dsimp only at h
                  · simp at h
                  · simp at h
                    obtain ⟨rfl, rfl⟩ := h
                    have hb2 := parseVal_bound _ _ _ _ hw
                    have hb3 := parseDictTail_bound _ _ _ _ hdt
                    simp [pyWeight, pyWeightPairs]
                    omega
              · rcases hpi : parseItems n '}' rest2 with _ | ⟨vs, t, r3⟩ <;> rw [hpi] at h <;> try dsimp only at h
                · simp at h
                · simp at h
                  obtain ⟨rfl, rfl⟩ := h
                  have hb2 := parseItems_bound _ _ _ _ _ _ hpi
                  simp [pyWeight, pyWeightList]
                  omega
              · simp at h
                obtain ⟨rfl, rfl⟩ := h
                simp [pyWeight, pyWeightList]
                omega

/-- Bound for `parseItems`: the items plus the closing bracket weigh no more
than the consumed input. -/
theorem parseItems_bound : ∀ (n : Nat) (close : Char) (cs : List Char) (vs : List PyVal)
    (t : Bool) (r : List Char),
    parseItems n close cs = some (vs, t, r) → pyWeightList vs + 1 + r.length ≤ cs.length
  | 0, close, cs, vs, t, r => by simp [parseItems]
  | n + 1, close, cs, vs, t, r => by
      intro h
      have hss : (skipSpaces cs).length ≤ cs.length := skipSpaces_length cs
      rw [parseItems] at h
      rcases hcs : skipSpaces cs with _ | ⟨c, rest⟩ <;> rw [hcs] at h
      · simp at h
      · rw [hcs] at hss
        simp at hss
        dsimp only at h
        split_ifs at h with h1
        · simp at h
          obtain ⟨rfl, rfl, rfl⟩ := h
          simp [pyWeightList]
          omega
        · rcases hv1 : parseVal n (c :: rest) with _ | ⟨v1, r1⟩ <;> rw [hv1] at h <;> try dsimp only at h
          · simp at h
          · have hb1 := parseVal_bound _ _ _ _ hv1
            simp at hb1
            rcases hcs2 : skipSpaces r1 with _ | ⟨c2, rest2⟩ <;> rw [hcs2] at h <;> try dsimp only at h
            · simp at h
            · have hss2 : (skipSpaces r1).length ≤ r1.length := skipSpaces_length r1
              rw [hcs2] at hss2
              simp at hss2
              split_ifs at h with hc2 hc3
              · simp at h
                obtain ⟨rfl, rfl, rfl⟩ := h
                simp [pyWeightList]
                omega
              · rcases hpi : parseItems n close rest2 with _ | ⟨vs1, t1, r3⟩ <;> rw [hpi] at h <;> try dsimp only at h
                · simp at h
                · have hb2 := parseItems_bound _ _ _ _ _ _ hpi
                  rcases vs1 with _ | ⟨w, ws⟩
                  · simp at h
                    obtain ⟨rfl, rfl, rfl⟩ := h
                    simp [pyWeightList] at hb2 ⊢
                    omega
                  · simp at h
                    obtain ⟨rfl, rfl, rfl⟩ := h
                    simp [pyWeightList] at hb2 ⊢
                    omega

/-- Bound for `parseDictTail`: the parsed pairs plus the closing brace weigh
no more than the consumed input. -/
theorem parseDictTail_bound : ∀ (n : Nat) (cs : List Char) (ps : List (PyVal × PyVal))
    (r : List Char),
    parseDictTail n cs = some (ps, r) → pyWeightPairs ps + 1 + r.length ≤ cs.length
  | 0, cs, ps, r => by simp [parseDictTail]
  | n + 1, cs, ps, r => by
      intro h
      have hss : (skipSpaces cs).length ≤ cs.length := skipSpaces_length cs
      rw [parseDictTail] at h
      rcases hcs : skipSpaces cs with _ | ⟨c, rest⟩ <;> rw [hcs] at h
      · simp at h
      · rw [hcs] at hss
        simp at hss
        dsimp only at h
        split_ifs at h with h1 h2
        · simp at h
          obtain ⟨rfl, rfl⟩ := h
          simp [pyWeightPairs]
          omega
        · rcases hcs2 : skipSpaces rest with _ | ⟨c1, rest1⟩ <;> rw [hcs2] at h <;> try dsimp only at h
          · simp at h
          · have hss2 : (skipSpaces rest).length ≤ rest.length := skipSpaces_length rest
            rw [hcs2] at hss2
            simp at hss2
            split_ifs at h with hc1
            · simp at h
              obtain ⟨rfl, rfl⟩ := h
              simp [pyWeightPairs]
              omega
            · rcases hk : parseVal n (c1 :: rest1) with _ | ⟨k, r1⟩ <;> rw [hk] at h <;> try dsimp only at h
              · simp at h
              · have hb1 := parseVal_bound _ _ _ _ hk
                simp at hb1
                rcases hcs3 : skipSpaces r1 with _ | ⟨c2, rest2⟩ <;> rw [hcs3] at h <;> try dsimp only at h
                · simp at h
                · have hss3 : (skipSpaces r1).length ≤ r1.length := skipSpaces_length r1
                  rw [hcs3] at hss3
                  simp at hss3
                  split_ifs at h with hc2
                  · rcases hw : parseVal n rest2 with _ | ⟨w, r3⟩ <;> rw [hw] at h <;> try dsimp only at h
                    · simp at h
                    · rcases hdt : parseDictTail n r3 with _ | ⟨ps1, r4⟩ <;> rw [hdt] at h <;> try dsimp only at h
                      · simp at h
                      · simp at h
                        obtain ⟨rfl, rfl⟩ := h
                        have hb2 := parseVal_bound _ _ _ _ hw
                        have hb3 := parseDictTail_bound _ _ _ _ hdt
                        simp [pyWeightPairs]
                        omega

end

/-- A value produced by `literal_eval` weighs no more than the length of the
string it was read from; in particular it is strictly smaller than the
string viewed as a `PyVal`. -/
theorem literal_eval_weight {s : String} {v : PyVal} (h : literal_eval s = some v) :
    pyWeight v ≤ s.length := by
  unfold literal_eval at h
  rcases hp : parseVal (s.length + 1) s.data with _ | ⟨w, rest⟩ <;> rw [hp] at h
  · simp at h
  · dsimp only at h
    split_ifs at h
    · simp at h
      subst h
      have hb := parseVal_bound _ _ _ _ hp
      have hd : s.data.length = s.length := rfl
      omega

/-- Elements delivered by the iterable rule of `clean_null` are structurally
smaller than the container. -/
theorem pyIter_weight_lt {x : PyVal} {items : List PyVal} (hx : pyIterNonStr x = some items)
    {e : PyVal} (he : e ∈ items) : pyWeight e < pyWeight x := by
  have hle := pyWeight_le_of_mem he
  cases x <;> simp [pyIterNonStr] at hx <;> subst hx <;> simp [pyWeight] at hle ⊢
  · omega
  · omega
  · omega
  · have := pyWeightList_fst_le (by assumption)
    omega

/-- The iterable rule of `clean_null`: a non-string iterable all of whose
elements the recursive call classifies as null-indicating.  The recursive
call receives the caller's `falsey_is_null` but the default (empty)
`special_characters`, exactly as in the source
(`clean_null(item, falsey_is_null)`). -/
def iterAllNull (rec : PyVal → Option PyVal) (x : PyVal) : Bool :=
  match pyIterNonStr x with
  | some items => items.all (fun e => (rec e).isNone)
  | none => false

/-- The literal rule of `clean_null`: a string that looks like a serialized
collection, parses as a literal, and whose parse the recursive call
classifies as null-indicating.  As in the source, the recursive call uses
the default (empty) `special_characters`. -/
def litNull (rec : PyVal → Option PyVal) : PyVal → Bool
  | vStr s =>
      litTrigger s &&
        (match literal_eval s with
         | some v => (rec v).isNone
         | none => false)
  | _ => false

/-- One unfolding of `clean_null` with the recursive occurrences abstracted
as `rec`; the branch order is exactly that of the source. -/
def cleanNullStep (rec : PyVal → Option PyVal) (x : PyVal) (falsey_is_null : Bool)
    (special_characters : String) : Option PyVal :=
  if x = vNone then none
  else if pyLen x = some 0 then none
  else if fingerprint x special_characters ∈ NULL_INDICATORS then none
  else if falsey_is_null && isFalsey x then none
  else if falsey_is_null && decide (fingerprint x special_characters ∈ FALSEY_INDICATORS) then none
  else if iterAllNull rec x then none
  else if litNull rec x then none
  else some x

/-- Fuel-indexed `clean_null`; `pyWeight` fuel is always sufficient
(`cleanNullF_adequate`), so the zero-fuel branch is never reached from
`clean_null`. -/
def cleanNullF : Nat → PyVal → Bool → String → Option PyVal
  | 0, x, _, _ => some x
  | n + 1, x, f, sp => cleanNullStep (fun e => cleanNullF n e f "") x f sp

/-- `clean_null(x, falsey_is_null, special_characters)` from
`cleaning_functions.py`: returns `none` when `x` is null-indicating, and
`some x` (the value unchanged) otherwise. -/
def clean_null (x : PyVal) (falsey_is_null : Bool := false)
    (special_characters : String := "") : Option PyVal :=
  cleanNullF (pyWeight x) x falsey_is_null special_characters

theorem all_congr_of {α : Type} {p q : α → Bool} :
    ∀ {l : List α}, (∀ a ∈ l, p a = q a) → l.all p = l.all q
  | [], _ => rfl
  | x :: xs, h => by
      have hx := h x (List.mem_cons_self x xs)
      have ht := all_congr_of (l := xs) (fun a ha => h a (List.mem_cons_of_mem x ha))
      simp only [List.all_cons, hx, ht]

theorem iterAllNull_congr {rec1 rec2 : PyVal → Option PyVal} {x : PyVal}
    (h : ∀ e, pyWeight e < pyWeight x → rec1 e = rec2 e) :
    iterAllNull rec1 x = iterAllNull rec2 x := by
  unfold iterAllNull
  rcases hx : pyIterNonStr x with _ | items
  · rfl
  · exact all_congr_of (fun e he => by rw [h e (pyIter_weight_lt hx he)])

theorem litNull_congr {rec1 rec2 : PyVal → Option PyVal} {x : PyVal}
    (h : ∀ e, pyWeight e < pyWeight x → rec1 e = rec2 e) :
    litNull rec1 x = litNull rec2 x := by
  cases x with
  | vStr s =>
      simp only [litNull]
      rcases hl : literal_eval s with _ | v
      · rfl
      · have hw := literal_eval_weight hl
        dsimp only
        rw [h v (by simp [pyWeight]; omega)]
  | vNone => rfl
  | vNan => rfl
  | vBool b => rfl
  | vInt n => rfl
  | vList xs => rfl
  | vTuple xs => rfl
  | vSet xs => rfl
  | vDict ps => rfl

theorem cleanNullStep_congr {rec1 rec2 : PyVal → Option PyVal} {x : PyVal} {f : Bool}
    {sp : String} (h : ∀ e, pyWeight e < pyWeight x → rec1 e = rec2 e) :
    cleanNullStep rec1 x f sp = cleanNullStep rec2 x f sp := by
  unfold cleanNullStep
  rw [iterAllNull_congr h, litNull_congr h]

/-- Any fuel at least `pyWeight x` computes the same result as `pyWeight x`
fuel; hence `clean_null` is well-defined as the canonical-fuel instance. -/
theorem cleanNullF_adequate : ∀ n (x : PyVal) (f : Bool) (sp : String), pyWeight x ≤ n →
    cleanNullF n x f sp = cleanNullF (pyWeight x) x f sp := by
  intro n
  induction n using Nat.strong_induction_on with
  | _ n ih =>
    intro x f sp hw
    have hpos := pyWeight_pos x
    rcases n with _ | m
    · omega
    · obtain ⟨k, hk⟩ : ∃ k, pyWeight x = k + 1 := ⟨pyWeight x - 1, by omega⟩
      rw [cleanNullF, hk, cleanNullF]
      apply cleanNullStep_congr
      intro e he
      have h1 := ih m (by omega) e f "" (by omega)
      have h2 := ih k (by omega) e f "" (by omega)
      rw [h1, h2]

/-- The recursion equation for `clean_null`: one step of the source's body,
with recursive calls at the caller's `falsey_is_null` and empty
`special_characters`. -/
theorem clean_null_unfold (x : PyVal) (f : Bool) (sp : String) :
    clean_null x f sp = cleanNullStep (fun e => clean_null e f "") x f sp := by
  show cleanNullF (pyWeight x) x f sp = _
  have hpos := pyWeight_pos x
  obtain ⟨k, hk⟩ : ∃ k, pyWeight x = k + 1 := ⟨pyWeight x - 1, by omega⟩
  rw [hk, cleanNullF]
  apply cleanNullStep_congr
  intro e he
  show cleanNullF k e f "" = cleanNullF (pyWeight e) e f ""
  exact cleanNullF_adequate k e f "" (by omega)

theorem cleanNullStep_some {rec : PyVal → Option PyVal} {x y : PyVal} {f : Bool} {sp : String}
    (h : cleanNullStep rec x f sp = some y) : y = x := by
  unfold cleanNullStep at h
  split_ifs at h
  all_goals simp at h
  exact h.symm

/-- `clean_null` is a filter: it returns either `none` or its argument
unchanged. -/
theorem clean_null_some_eq {x y : PyVal} {f : Bool} {sp : String}
    (h : clean_null x f sp = some y) : y = x := by
  rw [clean_null_unfold] at h
  exact cleanNullStep_some h

theorem fingerprint_vNan (sp : String) : fingerprint vNan sp = "nan" := by
  show String.mk ((("nan").data.map Char.toLower).filter (keepChar sp)) = "nan"
  have hmap : ("nan").data.map Char.toLower = ("nan").data := by decide
  rw [hmap]
  have hfil : ("nan").data.filter (keepChar sp) = ("nan").data := by
    apply List.filter_eq_self.mpr
    intro c hc
    have hcc : c = 'n' ∨ c = 'a' := by
      simp at hc
      tauto
    have hn : ('n').isLower = true := by decide
    have ha : ('a').isLower = true := by decide
    rcases hcc with rfl | rfl <;> simp [keepChar, hn, ha]
  rw [hfil]

/-- `float('nan')`, the absence marker, is itself null-indicating under every
configuration: its fingerprint is `"nan"`, a member of `NULL_INDICATORS`. -/
theorem clean_null_vNan (f : Bool) (sp : String) : clean_null vNan f sp = none := by
  rw [clean_null_unfold]
  unfold cleanNullStep
  rw [fingerprint_vNan]
  have hmem : "nan" ∈ NULL_INDICATORS := by decide
  split_ifs <;> first | rfl | exact absurd hmem (by assumption)

/-- C5: `clean_null` judges a dict by its keys only.  A non-empty dict whose
keys are all recursively null-indicating is classified null-indicating no
matter what its values are; and if some key is not null-indicating, the
iterable rule does not fire, whatever the values. -/
theorem clean_null_dict_keys_only (ps : List (PyVal × PyVal)) (f : Bool) (sp : String)
    (hne : ps ≠ []) :
    ((∀ k ∈ ps.map Prod.fst, clean_null k f "" = none) → clean_null (vDict ps) f sp = none) ∧
    ((∃ k ∈ ps.map Prod.fst, clean_null k f "" ≠ none) →
      iterAllNull (fun e => clean_null e f "") (vDict ps) = false) := by
  constructor
  · intro hall
    rw [clean_null_unfold]
    unfold cleanNullStep
    have hiter : iterAllNull (fun e => clean_null e f "") (vDict ps) = true := by
      unfold iterAllNull pyIterNonStr
      rw [List.all_eq_true]
      intro k hk
      simp [hall k hk]
    split_ifs <;> first | rfl | exact absurd hiter (by simp_all)
  · rintro ⟨k, hk, hkn⟩
    unfold iterAllNull pyIterNonStr
    rw [List.all_eq_false]
    exact ⟨k, hk, by simpa using hkn⟩

theorem clean_null_dict_keys_only_witness :
    clean_null (vDict [(vStr "na", vInt 7), (vStr "", vInt 8)]) false "" = none :=
  (clean_null_dict_keys_only [(vStr "na", vInt 7), (vStr "", vInt 8)] false ""
    (by decide)).1 (by decide)

/-- C9: the recursive element checks of `clean_null` pass the caller's
`falsey_is_null` through but always use an empty `allowed_specials`.
Directly, `'n.a'` with `allowed_specials = "."` is not null-indicating, yet
the one-element list `['n.a']` is classified null-indicating — under `"."`
and indeed under every `allowed_specials` — because the element check
fingerprints with the empty special set, where `'n.a'` collapses to
`"na"`. -/
theorem clean_null_nested_ignores_specials :
    clean_null (vStr "n.a") false "." = some (vStr "n.a") ∧
    clean_null (vList [vStr "n.a"]) false "." = none ∧
    (∀ sp : String, clean_null (vList [vStr "n.a"]) false sp = none) := by
  refine ⟨by decide, by decide, ?_⟩
  intro sp
  rw [clean_null_unfold]
  unfold cleanNullStep
  have hiter : iterAllNull (fun e => clean_null e false "") (vList [vStr "n.a"]) = true := by
    decide
  split_ifs <;> first | rfl | exact absurd hiter (by simp_all)

mutual

/-- Whether `hash(x)` succeeds in Python: `list`, `set` and `dict` are
unhashable, a `tuple` is hashable iff all of its items are, everything else
the library handles is hashable. -/
def pyHashable : PyVal → Bool
  | vNone => true
  | vNan => true
  | vBool _ => true
  | vInt _ => true
  | vStr _ => true
  | vTuple xs => pyHashableList xs
  | vList _ => false
  | vSet _ => false
  | vDict _ => false

/-- `pyHashable` of every element of a list. -/
def pyHashableList : List PyVal → Bool
  | [] => true
  | x :: xs => pyHashable x && pyHashableList xs

end

mutual

/-- Canonical form deciding Python `==` on the hashable values the library
compares: `False == 0` and `True == 1`, tuples compare elementwise, and no
other cross-type identification arises between the modelled values
(`float`s other than `nan` are not modelled, and `nan` — never `==` to
itself — is removed by the `pd.isnull` filters before every comparison
below).  Unhashable values are returned unchanged; they never reach a
hash-based comparison. -/
def pyCanon : PyVal → PyVal
  | vBool b => vInt (if b then 1 else 0)
  | vTuple xs => vTuple (pyCanonList xs)
  | x => x

/-- `pyCanon` of every element of a list. -/
def pyCanonList : List PyVal → List PyVal
  | [] => []
  | x :: xs => pyCanon x :: pyCanonList xs

end

/-- `set(xs)` on hashable values, determinized to first-occurrence order:
Python keeps the first-inserted element of each `==`-equivalence class, and
the embedding lists the kept elements in insertion order.  `seen` holds the
canonical forms already present. -/
def pySetD (seen : List PyVal) : List PyVal → List PyVal
  | [] => []
  | x :: xs =>
      if pyCanon x ∈ seen then pySetD seen xs
      else x :: pySetD (pyCanon x :: seen) xs

/-- Model of a `pandas.DataFrame`: row index values with an optional index
name, column labels, and the cell grid in row-major order. -/
structure DataFrame where
  index : List PyVal
  indexName : Option PyVal
  columns : List PyVal
  data : List (List PyVal)
deriving DecidableEq

/-- Rectangularity invariants satisfied by every real `pandas` frame: the
index has one entry per row and every row has one cell per column label. -/
def DataFrame.Wf (df : DataFrame) : Prop :=
  df.index.length = df.data.length ∧ ∀ row ∈ df.data, row.length = df.columns.length

instance (df : DataFrame) : Decidable df.Wf :=
  inferInstanceAs (Decidable (_ ∧ _))

/-- The default `pandas.RangeIndex` over `n` rows: the integers `0 … n-1`. -/
def defaultIndex (n : Nat) : List PyVal :=
  (List.range n).map (fun k => vInt (Int.ofNat k))

/-- `index_is_default(df)` from `dataframe_functions.py`:
`df.index.equals(pd.RangeIndex(df.shape[0])) and df.index.name is None`. -/
def index_is_default (df : DataFrame) : Bool :=
  decide (df.index = defaultIndex df.data.length) && decide (df.indexName = none)

/-- Count of the cells in `cells` whose fingerprint belongs to
`label_fingerprints` (the per-row `label_count` loop of
`find_column_labels`). -/
def countLabelMatches (cells : List PyVal) (label_fingerprints : List String)
    (special_characters : String) : Nat :=
  cells.countP (fun cell => decide (fingerprint cell special_characters ∈ label_fingerprints))

/-- The `iterrows` scan of `find_column_labels`: position of the first row
whose match count reaches the threshold. -/
def findLabelRow (label_fingerprints : List String) (thresh : Nat) (sp : String) :
    List (List PyVal) → Option Nat
  | [] => none
  | row :: rest =>
      if thresh ≤ countLabelMatches row label_fingerprints sp then some 0
      else (findLabelRow label_fingerprints thresh sp rest).map (· + 1)

/-- The observable failure outcomes of `find_column_labels`: the two
exceptions it raises itself (`ValueError`, `IndexError`), and
`renameCollision` for the outcome of `df.rename(columns=df.loc[label_index])`
on a frame whose column labels are not pairwise distinct under Python `==`.
pandas' rename mapper is label-keyed: on such a frame it hands every
occurrence of a duplicated label the same sub-Series-derived mapper value,
or fails outright inside pandas, depending on the pandas version
(`setup.py` pins only `pandas>=0.25.0`) — it never produces the header
row's per-position cells.  The embedding does not choose among those
version-dependent shapes: it records the outcome as this distinct error,
carrying the frame as it stands when the rename is attempted, and models
nothing further about it. -/
inductive FclError where
  | valueError
  | indexError
  | renameCollision
deriving DecidableEq

/-- `find_column_labels(df, label_fingerprints, label_match_thresh,
special_characters)` from `dataframe_functions.py`.  The Python function
mutates `df` in place and returns `None`; the embedding returns the final
frame, and an exception is an `Except.error` carrying the state the frame
is left in when the exception propagates (the in-place `reset_index` on a
non-default index is not undone on the not-found path).  On the success
path, `df.rename(columns=df.loc[label_index])` is label-keyed: when the
scanned frame's column labels are pairwise distinct under Python `==`
(canonical forms `pyCanon` pairwise distinct), every label is its own
unique mapper key, the mapper value is that column's header-row cell, and
the rename coincides with the per-position relabelling modelled below;
otherwise the outcome is the `renameCollision` one described at
`FclError`, carrying the frame as it stands at the rename attempt (data
and columns as received, index reset to the default by the temporary
re-indexing when it was a custom one).  `df.drop` of the leading rows and
the index realignment are positional in the source itself (the scan frame
has the default `RangeIndex`). -/
def find_column_labels (df : DataFrame) (label_fingerprints : List String)
    (label_match_thresh : Nat := 3) (special_characters : String := "") :
    Except (FclError × DataFrame) DataFrame :=
  if label_match_thresh = 0 then .error (.valueError, df)
  else if label_match_thresh ≤
      countLabelMatches df.columns label_fingerprints special_characters then .ok df
  else
    let isDef := index_is_default df
    let dfScan : DataFrame :=
      if isDef then df
      else { df with index := defaultIndex df.data.length, indexName := none }
    match findLabelRow label_fingerprints label_match_thresh special_characters df.data with
    | none => .error (.indexError, dfScan)
    | some i =>
        if (df.columns.map pyCanon).Nodup then
          let headers := (df.data.get? i).getD []
          let newData := df.data.drop (i + 1)
          if isDef then .ok ⟨defaultIndex newData.length, none, headers, newData⟩
          else .ok ⟨df.index.drop (i + 1), df.indexName, headers, newData⟩
        else .error (.renameCollision, dfScan)

/-- The cell-level pass of `dataframe_clean_null`: a cell judged
null-indicating is replaced by `np.nan`, any other cell is left as it was. -/
def cleanCell (falsey_is_null : Bool) (special_characters : String) (c : PyVal) : PyVal :=
  match clean_null c falsey_is_null special_characters with
  | none => vNan
  | some _ => c

/-- The whole-frame cell normalization pass (the double loop over
`df.iloc[i, j]` in `dataframe_clean_null`). -/
def cellClean (falsey_is_null : Bool) (special_characters : String) (df : DataFrame) :
    DataFrame :=
  { df with data := df.data.map (fun row => row.map (cleanCell falsey_is_null special_characters)) }

/-- Number of non-NA cells of a row (`pandas` counts `None` and `nan` as NA). -/
def rowNonNACount (row : List PyVal) : Nat :=
  row.countP (fun c => !(isNA c))

/-- `df.dropna(axis=0, thresh=t)`: keep the rows (with their index entries)
holding at least `t` non-NA cells. -/
def dropRowsBelow (t : Nat) (idx : List PyVal) (rows : List (List PyVal)) :
    List PyVal × List (List PyVal) :=
  let kept := (idx.zip rows).filter (fun p => t ≤ rowNonNACount p.2)
  (kept.map Prod.fst, kept.map Prod.snd)

/-- Number of rows whose cell at column position `j` is present and non-NA. -/
def colNonNACount (rows : List (List PyVal)) (j : Nat) : Nat :=
  rows.countP (fun row =>
    match row.get? j with
    | some c => !(isNA c)
    | none => false)

/-- `df.dropna(axis=1, thresh=t)` as a keep-mask over column positions. -/
def colMask (ncols : Nat) (rows : List (List PyVal)) (t : Nat) : List Bool :=
  (List.range ncols).map (fun j => decide (t ≤ colNonNACount rows j))

/-- Keep the entries of `xs` at the positions where `mask` is `true`. -/
def filterByMask {α : Type} (mask : List Bool) (xs : List α) : List α :=
  ((mask.zip xs).filter Prod.fst).map Prod.snd

/-- `df.dropna(axis=0, how='all')`: keep the rows (with their index entries)
holding at least one non-NA cell. -/
def dropAllNARows (idx : List PyVal) (rows : List (List PyVal)) :
    List PyVal × List (List PyVal) :=
  let kept := (idx.zip rows).filter (fun p => 0 < rowNonNACount p.2)
  (kept.map Prod.fst, kept.map Prod.snd)

/-- `dataframe_clean_null(df, empty_row_thresh, empty_column_thresh,
falsey_is_null, special_characters)` from `dataframe_functions.py`: cell
normalization, row pruning, column pruning (counted after row pruning), the
conditional final all-NA row pass, and the index reset when the frame came
in with the default index. -/
def dataframe_clean_null (df : DataFrame) (empty_row_thresh : Nat := 1)
    (empty_column_thresh : Nat := 1) (falsey_is_null : Bool := false)
    (special_characters : String := "") : DataFrame :=
  let isDef := index_is_default df
  let df1 := cellClean falsey_is_null special_characters df
  let p2 := dropRowsBelow empty_row_thresh df1.index df1.data
  let mask := colMask df.columns.length p2.2 empty_column_thresh
  let cols3 := filterByMask mask df.columns
  let rows3 := p2.2.map (filterByMask mask)
  let p4 :=
    if 1 < empty_column_thresh ∧ empty_row_thresh ≠ 0 then dropAllNARows p2.1 rows3
    else (p2.1, rows3)
  if isDef then ⟨defaultIndex p4.2.length, none, cols3, p4.2⟩
  else ⟨p4.1, df.indexName, cols3, p4.2⟩

theorem map_congr_of {α β : Type} (f g : α → β) :
    ∀ l : List α, (∀ a ∈ l, f a = g a) → l.map f = l.map g
  | [], _ => rfl
  | x :: xs, h => by
      rw [List.map_cons, List.map_cons, h x (List.mem_cons_self x xs),
        map_congr_of f g xs (fun a ha => h a (List.mem_cons_of_mem x ha))]

/-- C8: calling the header locator with `match_threshold = 0` fails with the
invalid-argument error immediately, and the frame carried by the error is
exactly the frame passed in — nothing was scanned or mutated. -/
theorem find_column_labels_zero_threshold (df : DataFrame) (fps : List String) (sp : String) :
    find_column_labels df fps 0 sp = .error (.valueError, df) := rfl

theorem findLabelRow_eq_none {fps : List String} {t : Nat} {sp : String} :
    ∀ {rows : List (List PyVal)}, (∀ row ∈ rows, countLabelMatches row fps sp < t) →
      findLabelRow fps t sp rows = none
  | [], _ => rfl
  | r :: rest, h => by
      rw [findLabelRow, if_neg (by have := h r (List.mem_cons_self r rest); omega),
        findLabelRow_eq_none (fun row hrow => h row (List.mem_cons_of_mem r hrow))]
      rfl

theorem findLabelRow_first {fps : List String} {t : Nat} {sp : String} :
    ∀ (rows : List (List PyVal)) (i : Nat) (row : List PyVal),
      rows.get? i = some row → t ≤ countLabelMatches row fps sp →
      (∀ j < i, countLabelMatches ((rows.get? j).getD []) fps sp < t) →
      findLabelRow fps t sp rows = some i
  | [], i, row, hrow, _, _ => by simp at hrow
  | r :: rest, 0, row, hrow, hmatch, _ => by
      simp at hrow
      subst hrow
      rw [findLabelRow, if_pos hmatch]
  | r :: rest, k + 1, row, hrow, hmatch, hmin => by
      have h0 := hmin 0 (Nat.succ_pos k)
      simp at h0
      rw [findLabelRow, if_neg (by omega),
        findLabelRow_first rest k row (by simpa using hrow) hmatch
          (fun j hj => by simpa using hmin (j + 1) (by omega))]
      rfl

/-- C1 (counterexample): on a not-found failure over a frame with a custom
index, the frame is not left as received — the custom index `['x']` has been
reset to the default ordinal index `[0]`, an externally visible mutation. -/
theorem find_column_labels_notfound_mutation :
    find_column_labels (⟨[vStr "x"], none, [vInt 0], [[vStr "foo"]]⟩ : DataFrame)
        ["email", "date", "phone"] 3 "" =
      .error (.indexError, (⟨[vInt 0], none, [vInt 0], [[vStr "foo"]]⟩ : DataFrame)) ∧
    (⟨[vInt 0], none, [vInt 0], [[vStr "foo"]]⟩ : DataFrame) ≠
      ⟨[vStr "x"], none, [vInt 0], [[vStr "foo"]]⟩ :=
  ⟨rfl, by decide⟩

/-- C1 (amended): when no row reaches the threshold the locator raises the
not-found error after a read-only scan; the data and column labels are
exactly as received, and the frame is exactly as received when its index was
the default one, but a custom index has been reset to the default ordinal
index by the in-place temporary re-indexing, which the failure path never
undoes. -/
theorem find_column_labels_notfound (df : DataFrame) (fps : List String) (t : Nat)
    (sp : String) (ht : t ≠ 0) (hcols : countLabelMatches df.columns fps sp < t)
    (hrows : ∀ row ∈ df.data, countLabelMatches row fps sp < t) :
    find_column_labels df fps t sp =
      .error (.indexError,
        if index_is_default df then df
        else { df with index := defaultIndex df.data.length, indexName := none }) := by
  unfold find_column_labels
  rw [if_neg ht, if_neg (by omega), findLabelRow_eq_none hrows]

theorem find_column_labels_notfound_witness :
    find_column_labels (⟨[vStr "x"], none, [vInt 0], [[vStr "foo"]]⟩ : DataFrame)
        ["email", "date", "phone"] 3 "" =
      .error (.indexError, (⟨[vInt 0], none, [vInt 0], [[vStr "foo"]]⟩ : DataFrame)) := by
  have h := find_column_labels_notfound
    (⟨[vStr "x"], none, [vInt 0], [[vStr "foo"]]⟩ : DataFrame)
    ["email", "date", "phone"] 3 "" (by decide) (by decide) (by decide)
  exact h.trans (by rfl)

/-- C4 (counterexample): a frame whose two column labels are both `"x"` and
whose first data row reaches the threshold.  The claim says the locator
sets each column's label to that row's per-position cell (`"name"`,
`"email"`); the program's label-keyed
`df.rename(columns=df.loc[label_index])` instead hands both occurrences of
the duplicated key `"x"` the same sub-Series-derived mapper value, or fails
outright inside pandas, depending on the pandas version — never the
per-position cells, which differ here.  The embedding records that outcome
as the distinct `renameCollision` error carrying the frame as it stands at
the rename attempt, so the located header row is not applied as the claim
describes. -/
theorem find_column_labels_duplicate_columns :
    find_column_labels
        (⟨defaultIndex 2, none, [vStr "x", vStr "x"],
          [[vStr "name", vStr "email"],
           [vStr "bob", vStr "b@b.com"]]⟩ : DataFrame) ["name", "email"] 1 "" =
      .error (.renameCollision,
        (⟨defaultIndex 2, none, [vStr "x", vStr "x"],
          [[vStr "name", vStr "email"],
           [vStr "bob", vStr "b@b.com"]]⟩ : DataFrame)) := rfl

/-- C4 (amended): when the fast path does not apply, row `i` is the topmost
row reaching the threshold, and the frame's column labels are pairwise
distinct under Python `==`, the locator succeeds: the column labels become
that row's original cell values, that row and everything above it are
removed, and the index is re-numbered from zero when the frame came in with
the default index, or realigned to the original custom index values of the
surviving rows otherwise.  (On duplicated column labels the label-keyed
rename never yields this per-position relabelling; see the counterexample.) -/
theorem find_column_labels_success (df : DataFrame) (fps : List String) (t : Nat)
    (sp : String) (i : Nat) (row : List PyVal) (ht : t ≠ 0)
    (huniq : (df.columns.map pyCanon).Nodup)
    (hcols : countLabelMatches df.columns fps sp < t)
    (hrow : df.data.get? i = some row) (hmatch : t ≤ countLabelMatches row fps sp)
    (hmin : ∀ j < i, countLabelMatches ((df.data.get? j).getD []) fps sp < t) :
    find_column_labels df fps t sp =
      .ok (if index_is_default df
           then ⟨defaultIndex (df.data.drop (i + 1)).length, none, row, df.data.drop (i + 1)⟩
           else ⟨df.index.drop (i + 1), df.indexName, row, df.data.drop (i + 1)⟩) := by
  unfold find_column_labels
  rw [if_neg ht, if_neg (by omega), findLabelRow_first df.data i row hrow hmatch hmin]
  have hrow' : df.data[i]? = some row := by simpa [← List.get?_eq_getElem?] using hrow
  cases hdef : index_is_default df <;> simp [hdef, hrow', huniq]

theorem find_column_labels_success_witness :
    ((⟨defaultIndex 3, none, [vInt 0, vInt 1, vInt 2],
        [[vStr "junk", vStr "", vStr "x"],
         [vStr "email", vStr "date", vStr "phone"],
         [vStr "a@a.com", vStr "04mar14", vStr "999-333-4444"]]⟩ : DataFrame).columns.map
        pyCanon).Nodup ∧
    find_column_labels
        (⟨defaultIndex 3, none, [vInt 0, vInt 1, vInt 2],
          [[vStr "junk", vStr "", vStr "x"],
           [vStr "email", vStr "date", vStr "phone"],
           [vStr "a@a.com", vStr "04mar14", vStr "999-333-4444"]]⟩ : DataFrame)
        ["email", "date", "phone"] 3 "" =
      .ok (⟨defaultIndex 1, none, [vStr "email", vStr "date", vStr "phone"],
        [[vStr "a@a.com", vStr "04mar14", vStr "999-333-4444"]]⟩ : DataFrame) := by
  refine ⟨by decide, ?_⟩
  have h := find_column_labels_success
    (⟨defaultIndex 3, none, [vInt 0, vInt 1, vInt 2],
      [[vStr "junk", vStr "", vStr "x"],
       [vStr "email", vStr "date", vStr "phone"],
       [vStr "a@a.com", vStr "04mar14", vStr "999-333-4444"]]⟩ : DataFrame)
    ["email", "date", "phone"] 3 "" 1 [vStr "email", vStr "date", vStr "phone"]
    (by decide) (by decide) (by decide) (by rfl) (by decide) (by decide)
  exact h.trans (by rfl)

theorem cleanCell_idem (f : Bool) (sp : String) (c : PyVal) :
    cleanCell f sp (cleanCell f sp c) = cleanCell f sp c := by
  rcases h : clean_null c f sp with _ | y
  · simp [cleanCell, h, clean_null_vNan]
  · simp [cleanCell, h]

/-- C10: the orchestrator's absence marker `nan` fingerprints to `"nan"`,
a member of the Null-Indicator Set, so it is itself classified
null-indicating; consequently re-running the cell-level normalization pass
over an already-normalized frame changes no cell. -/
theorem nan_marker_stable (f : Bool) (sp : String) (df : DataFrame) :
    fingerprint vNan sp = "nan" ∧ "nan" ∈ NULL_INDICATORS ∧
      clean_null vNan f sp = none ∧
      cellClean f sp (cellClean f sp df) = cellClean f sp df := by
  refine ⟨fingerprint_vNan sp, by decide, clean_null_vNan f sp, ?_⟩
  unfold cellClean
  simp only [List.map_map]
  congr 1
  apply map_congr_of
  intro rw hrw
  simp only [Function.comp]
  rw [List.map_map]
  apply map_congr_of
  intro c hc
  simp only [Function.comp]
  exact cleanCell_idem f sp c

theorem filterByMask_nil_mask {α : Type} (xs : List α) : filterByMask [] xs = [] := rfl

theorem filterByMask_nil {α : Type} (mask : List Bool) : filterByMask mask ([] : List α) = [] := by
  cases mask <;> rfl

theorem filterByMask_cons {α : Type} (b : Bool) (m : List Bool) (x : α) (xs : List α) :
    filterByMask (b :: m) (x :: xs) =
      if b then x :: filterByMask m xs else filterByMask m xs := by
  cases b <;> simp [filterByMask]

theorem filterByMask_length {α : Type} :
    ∀ {mask : List Bool} {xs : List α}, mask.length = xs.length →
      (filterByMask mask xs).length = mask.countP id
  | [], [], _ => rfl
  | [], _ :: _, h => by simp at h
  | _ :: _, [], h => by simp at h
  | b :: m, x :: xs, h => by
      rw [filterByMask_cons]
      have ih := @filterByMask_length α m xs (by simpa using h)
      cases b <;> simp [List.countP_cons, ih]

theorem filterByMask_subset {α : Type} {mask : List Bool} {xs : List α} {c : α}
    (h : c ∈ filterByMask mask xs) : c ∈ xs := by
  unfold filterByMask at h
  obtain ⟨p, hp, rfl⟩ := List.mem_map.mp h
  exact (List.of_mem_zip (List.mem_of_mem_filter hp)).2

theorem filterByMask_mem_of {α : Type} :
    ∀ {mask : List Bool} {xs : List α} {j : Nat} {c : α},
      mask.get? j = some true → xs.get? j = some c → c ∈ filterByMask mask xs
  | [], _, j, _, hm, _ => by simp at hm
  | _ :: _, [], j, _, _, hx => by simp at hx
  | b :: m, x :: xs, 0, c, hm, hx => by
      simp at hm hx
      subst hm
      subst hx
      rw [filterByMask_cons]
      simp
  | b :: m, x :: xs, j + 1, c, hm, hx => by
      simp at hm hx
      have := @filterByMask_mem_of α m xs j c
        (by simpa using hm) (by simpa using hx)
      rw [filterByMask_cons]
      cases b <;> simp [this]

theorem filterByMask_all_true {α : Type} :
    ∀ {mask : List Bool} {xs : List α}, (∀ b ∈ mask, b = true) → mask.length = xs.length →
      filterByMask mask xs = xs
  | [], [], _, _ => rfl
  | [], _ :: _, _, h => by simp at h
  | _ :: _, [], _, h => by simp at h
  | b :: m, x :: xs, hall, h => by
      have hb := hall b (List.mem_cons_self b m)
      subst hb
      rw [filterByMask_cons, if_pos rfl,
        filterByMask_all_true (fun b hb => hall b (List.mem_cons_of_mem _ hb)) (by simpa using h)]

theorem filterByMask_rowCount_eq :
    ∀ {mask : List Bool} {xs : List PyVal}, mask.length = xs.length →
      (∀ j c, mask.get? j = some false → xs.get? j = some c → isNA c = true) →
      rowNonNACount (filterByMask mask xs) = rowNonNACount xs
  | [], [], _, _ => rfl
  | [], _ :: _, h, _ => by simp at h
  | _ :: _, [], h, _ => by simp at h
  | b :: m, x :: xs, h, hna => by
      have ih := @filterByMask_rowCount_eq m xs (by simpa using h)
        (fun j c hm hx => hna (j + 1) c (by simpa using hm) (by simpa using hx))
      rw [filterByMask_cons]
      cases b
      · have hx : isNA x = true := hna 0 x (by simp) (by simp)
        simp [rowNonNACount, List.countP_cons, hx] at ih ⊢
        omega
      · simp [rowNonNACount, List.countP_cons] at ih ⊢
        omega

theorem zip_filter_snd {α β : Type} (q : β → Bool) :
    ∀ {idx : List α} {rows : List β}, idx.length = rows.length →
      ((idx.zip rows).filter (fun p => q p.2)).map Prod.snd = rows.filter q
  | [], [], _ => rfl
  | [], _ :: _, h => by simp at h
  | _ :: _, [], h => by simp at h
  | i :: idx, r :: rows, h => by
      have ih := @zip_filter_snd α β q idx rows (by simpa using h)
      simp only [List.zip_cons_cons, List.filter_cons]
      cases hq : q r <;> simp [hq, ih]

theorem zip_filter_fst_all {α β : Type} (q : β → Bool) :
    ∀ {idx : List α} {rows : List β}, idx.length = rows.length →
      (∀ r ∈ rows, q r = true) →
      ((idx.zip rows).filter (fun p => q p.2)).map Prod.fst = idx
  | [], [], _, _ => rfl
  | [], _ :: _, h, _ => by simp at h
  | _ :: _, [], h, _ => by simp at h
  | i :: idx, r :: rows, h, hall => by
      have ih := @zip_filter_fst_all α β q idx rows (by simpa using h)
        (fun r hr => hall r (List.mem_cons_of_mem _ hr))
      simp only [List.zip_cons_cons, List.filter_cons]
      rw [hall r (List.mem_cons_self r rows)]
      simpa using ih

theorem countP_congr_of {α : Type} {p q : α → Bool} :
    ∀ {l : List α}, (∀ a ∈ l, p a = q a) → l.countP p = l.countP q
  | [], _ => rfl
  | x :: xs, h => by
      rw [List.countP_cons, List.countP_cons, h x (List.mem_cons_self x xs),
        countP_congr_of (fun a ha => h a (List.mem_cons_of_mem x ha))]

theorem countP_filter_eq {α : Type} {p keep : α → Bool} :
    ∀ {l : List α}, (∀ a ∈ l, keep a = false → p a = false) →
      (l.filter keep).countP p = l.countP p
  | [], _ => rfl
  | x :: xs, h => by
      have ih := @countP_filter_eq α p keep xs
        (fun a ha hk => h a (List.mem_cons_of_mem x ha) hk)
      rw [List.filter_cons]
      cases hk : keep x
      · have hp := h x (List.mem_cons_self x xs) hk
        simp [List.countP_cons, hp, ih]
      · simp [List.countP_cons, ih]

theorem colMask_length (ncols : Nat) (rows : List (List PyVal)) (t : Nat) :
    (colMask ncols rows t).length = ncols := by
  simp [colMask]

theorem colMask_get {ncols : Nat} {rows : List (List PyVal)} {t : Nat} {j : Nat}
    (hj : j < ncols) :
    (colMask ncols rows t).get? j = some (decide (t ≤ colNonNACount rows j)) := by
  simp [colMask, List.get?_eq_getElem?, List.getElem?_map, List.getElem?_range hj]

theorem colMask_all_true {ncols : Nat} {rows : List (List PyVal)} {t : Nat}
    (h : ∀ j < ncols, t ≤ colNonNACount rows j) :
    ∀ b ∈ colMask ncols rows t, b = true := by
  intro b hb
  unfold colMask at hb
  obtain ⟨j, hj, rfl⟩ := List.mem_map.mp hb
  simp at hj
  simpa using h j hj

theorem dropRowsBelow_snd {t : Nat} {idx : List PyVal} {rows : List (List PyVal)}
    (h : idx.length = rows.length) :
    (dropRowsBelow t idx rows).2 = rows.filter (fun r => decide (t ≤ rowNonNACount r)) := by
  show ((idx.zip rows).filter (fun p => decide (t ≤ rowNonNACount p.2))).map Prod.snd = _
  exact zip_filter_snd (fun r => decide (t ≤ rowNonNACount r)) h

theorem dropAllNARows_snd {idx : List PyVal} {rows : List (List PyVal)}
    (h : idx.length = rows.length) :
    (dropAllNARows idx rows).2 = rows.filter (fun r => decide (0 < rowNonNACount r)) := by
  show ((idx.zip rows).filter (fun p => decide (0 < rowNonNACount p.2))).map Prod.snd = _
  exact zip_filter_snd (fun r => decide (0 < rowNonNACount r)) h

/-- The rows surviving the cell pass plus row pruning (`p2.2` inside
`dataframe_clean_null`), as a plain filter. -/
def dcnRows2 (df : DataFrame) (rt : Nat) (f : Bool) (sp : String) : List (List PyVal) :=
  (df.data.map (fun row => row.map (cleanCell f sp))).filter
    (fun r => decide (rt ≤ rowNonNACount r))

/-- The column keep-mask of `dataframe_clean_null`. -/
def dcnMask (df : DataFrame) (rt ct : Nat) (f : Bool) (sp : String) : List Bool :=
  colMask df.columns.length (dcnRows2 df rt f sp) ct

/-- The surviving rows after column pruning. -/
def dcnRows3 (df : DataFrame) (rt ct : Nat) (f : Bool) (sp : String) : List (List PyVal) :=
  (dcnRows2 df rt f sp).map (filterByMask (dcnMask df rt ct f sp))

/-- The final data grid of `dataframe_clean_null`. -/
def dcnRows4 (df : DataFrame) (rt ct : Nat) (f : Bool) (sp : String) : List (List PyVal) :=
  if 1 < ct ∧ rt ≠ 0 then
    (dcnRows3 df rt ct f sp).filter (fun r => decide (0 < rowNonNACount r))
  else dcnRows3 df rt ct f sp

theorem dcn_data (df : DataFrame) (rt ct : Nat) (f : Bool) (sp : String)
    (hIdx : df.index.length = df.data.length) :
    (dataframe_clean_null df rt ct f sp).data = dcnRows4 df rt ct f sp := by
  unfold dataframe_clean_null
  have hlen1 : df.index.length
      = (df.data.map (fun row => row.map (cleanCell f sp))).length := by simpa using hIdx
  have h2 : (dropRowsBelow rt df.index
        (df.data.map (fun row => row.map (cleanCell f sp)))).2 = dcnRows2 df rt f sp :=
    dropRowsBelow_snd hlen1
  have hlen2 : (dropRowsBelow rt df.index
        (df.data.map (fun row => row.map (cleanCell f sp)))).1.length
      = (dropRowsBelow rt df.index
        (df.data.map (fun row => row.map (cleanCell f sp)))).2.length := by
    unfold dropRowsBelow
    simp
  dsimp only [cellClean]
  rw [h2]
  by_cases hc : 1 < ct ∧ rt ≠ 0
  · rw [if_pos hc]
    have h4 := @dropAllNARows_snd ((dropRowsBelow rt df.index
        (df.data.map (fun row => row.map (cleanCell f sp)))).1)
      ((dcnRows2 df rt f sp).map
        (filterByMask (colMask df.columns.length (dcnRows2 df rt f sp) ct)))
      (by rw [hlen2, h2]; simp)
    cases hdef : index_is_default df <;>
      simp only [hdef, Bool.false_eq_true, if_false, if_true] <;>
      rw [h4] <;>
      simp [dcnRows4, dcnRows3, dcnMask, if_pos hc]
  · rw [if_neg hc]
    cases hdef : index_is_default df <;>
      simp only [hdef, Bool.false_eq_true, if_false, if_true] <;>
      simp [dcnRows4, dcnRows3, dcnMask, if_neg hc]

theorem dcn_columns (df : DataFrame) (rt ct : Nat) (f : Bool) (sp : String)
    (hIdx : df.index.length = df.data.length) :
    (dataframe_clean_null df rt ct f sp).columns
      = filterByMask (dcnMask df rt ct f sp) df.columns := by
  unfold dataframe_clean_null
  have hlen1 : df.index.length
      = (df.data.map (fun row => row.map (cleanCell f sp))).length := by simpa using hIdx
  have h2 : (dropRowsBelow rt df.index
        (df.data.map (fun row => row.map (cleanCell f sp)))).2 = dcnRows2 df rt f sp :=
    dropRowsBelow_snd hlen1
  dsimp only [cellClean]
  rw [h2]
  cases hdef : index_is_default df <;>
    simp [hdef, dcnMask]

theorem dcnRows4_no_allNA (df : DataFrame) (rt ct : Nat) (f : Bool) (sp : String)
    (hwf : ∀ row ∈ df.data, row.length = df.columns.length) (hrt : rt ≠ 0) :
    ∀ row ∈ dcnRows4 df rt ct f sp, ∃ c ∈ row, isNA c = false := by
  intro row hrow
  unfold dcnRows4 at hrow
  by_cases hc : 1 < ct ∧ rt ≠ 0
  · rw [if_pos hc] at hrow
    have h2 := List.mem_filter.mp hrow
    have hpos : 0 < rowNonNACount row := by simpa using h2.2
    obtain ⟨c, hcm, hcp⟩ := List.countP_pos_iff.mp hpos
    exact ⟨c, hcm, by simpa using hcp⟩
  · rw [if_neg hc] at hrow
    have hct : ct ≤ 1 := by
      rcases Nat.lt_or_ge 1 ct with h1 | h1
      · exact absurd ⟨h1, hrt⟩ hc
      · exact h1
    unfold dcnRows3 at hrow
    obtain ⟨r, hr, rfl⟩ := List.mem_map.mp hrow
    have hmem := List.mem_filter.mp hr
    have hcnt : rt ≤ rowNonNACount r := by simpa using hmem.2
    have hrlen : r.length = df.columns.length := by
      obtain ⟨r0, hr0, rfl⟩ := List.mem_map.mp hmem.1
      simpa using hwf r0 hr0
    have hpos : 0 < rowNonNACount r := by omega
    obtain ⟨c, hcm, hcp⟩ := List.countP_pos_iff.mp hpos
    obtain ⟨j, hj⟩ := List.mem_iff_get?.mp hcm
    have hj' : r[j]? = some c := by simpa using hj
    have hcol : 0 < colNonNACount (dcnRows2 df rt f sp) j := by
      apply List.countP_pos_iff.mpr
      exact ⟨r, hr, by simp [hj', hcp]⟩
    have hjlt : j < df.columns.length := by
      have hlt : j < r.length := by
        by_contra hge
        rw [List.get?_eq_none.mpr (by omega)] at hj
        simp at hj
      omega
    have hmask : (dcnMask df rt ct f sp).get? j = some true := by
      unfold dcnMask
      rw [colMask_get hjlt]
      simp
      omega
    exact ⟨c, filterByMask_mem_of hmask hj, by simpa using hcp⟩

/-- C3: whenever row-dropping is enabled (`empty_row_thresh ≠ 0`), the table
produced by `dataframe_clean_null` contains no row all of whose cells are
the absence marker — every surviving row keeps at least one non-NA cell. -/
theorem dataframe_clean_null_no_empty_rows (df : DataFrame) (rt ct : Nat) (f : Bool)
    (sp : String) (hwf : df.Wf) (hrt : rt ≠ 0) :
    ∀ row ∈ (dataframe_clean_null df rt ct f sp).data, ∃ c ∈ row, isNA c = false := by
  rw [dcn_data df rt ct f sp hwf.1]
  exact dcnRows4_no_allNA df rt ct f sp hwf.2 hrt

theorem dataframe_clean_null_no_empty_rows_witness : ∃ c ∈ [vInt 5], isNA c = false :=
  dataframe_clean_null_no_empty_rows
    (⟨[vInt 0, vInt 1], none, [vStr "a"], [[vInt 5], [vStr "null"]]⟩ : DataFrame)
    1 1 false "" (by decide) (by decide) [vInt 5] (by decide)

/-- Original column position of the `j`-th surviving column under `mask`. -/
def maskPos : List Bool → Nat → Nat
  | [], _ => 0
  | true :: _, 0 => 0
  | true :: m, j + 1 => maskPos m j + 1
  | false :: m, j => maskPos m j + 1

theorem colNonNACount_succ_tail {rows : List (List PyVal)}
    (hne : ∀ r ∈ rows, r ≠ []) (p : Nat) :
    colNonNACount rows (p + 1) = colNonNACount (rows.map List.tail) p := by
  unfold colNonNACount
  rw [List.countP_map]
  apply countP_congr_of
  intro r hr
  rcases r with _ | ⟨x, xs⟩
  · exact absurd rfl (hne _ hr)
  · simp [Function.comp]

theorem col_filter_true_zero {m : List Bool} {rows : List (List PyVal)}
    (hne : ∀ r ∈ rows, r ≠ []) :
    colNonNACount (rows.map (filterByMask (true :: m))) 0 = colNonNACount rows 0 := by
  unfold colNonNACount
  rw [List.countP_map]
  apply countP_congr_of
  intro r hr
  rcases r with _ | ⟨x, xs⟩
  · exact absurd rfl (hne _ hr)
  · simp [Function.comp, filterByMask_cons]

theorem col_filter_true_succ {m : List Bool} {rows : List (List PyVal)}
    (hne : ∀ r ∈ rows, r ≠ []) (j : Nat) :
    colNonNACount (rows.map (filterByMask (true :: m))) (j + 1)
      = colNonNACount ((rows.map List.tail).map (filterByMask m)) j := by
  unfold colNonNACount
  rw [List.countP_map, List.countP_map, List.countP_map]
  apply countP_congr_of
  intro r hr
  rcases r with _ | ⟨x, xs⟩
  · exact absurd rfl (hne _ hr)
  · simp [Function.comp, filterByMask_cons]

theorem col_filter_false {m : List Bool} {rows : List (List PyVal)}
    (hne : ∀ r ∈ rows, r ≠ []) (j : Nat) :
    colNonNACount (rows.map (filterByMask (false :: m))) j
      = colNonNACount ((rows.map List.tail).map (filterByMask m)) j := by
  unfold colNonNACount
  rw [List.countP_map, List.countP_map, List.countP_map]
  apply countP_congr_of
  intro r hr
  rcases r with _ | ⟨x, xs⟩
  · exact absurd rfl (hne _ hr)
  · simp [Function.comp, filterByMask_cons]

/-- Column `j` of the mask-filtered grid is column `maskPos mask j` of the
original grid, and that original position is mask-true. -/
theorem maskPos_spec : ∀ (mask : List Bool) (rows : List (List PyVal)) (j : Nat),
    (∀ r ∈ rows, r.length = mask.length) → j < mask.countP id →
    colNonNACount (rows.map (filterByMask mask)) j = colNonNACount rows (maskPos mask j) ∧
      mask.get? (maskPos mask j) = some true
  | [], rows, j, hlen, hj => by
      have h0 : (([] : List Bool).countP id) = 0 := rfl
      omega
  | b :: m, rows, j, hlen, hj => by
      have hne : ∀ r ∈ rows, r ≠ [] := by
        intro r hr hr0
        have := hlen r hr
        rw [hr0] at this
        simp at this
      have htlen : ∀ r ∈ rows.map List.tail, r.length = m.length := by
        intro r hr
        obtain ⟨r0, hr0, rfl⟩ := List.mem_map.mp hr
        have := hlen r0 hr0
        rcases r0 with _ | ⟨x, xs⟩
        · exact absurd rfl (hne _ hr0)
        · simpa using this
      cases b with
      | true =>
          cases j with
          | zero => exact ⟨col_filter_true_zero hne, by simp [maskPos]⟩
          | succ j' =>
              have hj' : j' < m.countP id := by
                have : (true :: m).countP id = m.countP id + 1 := by
                  simp [List.countP_cons]
                omega
              have ih := maskPos_spec m (rows.map List.tail) j' htlen hj'
              refine ⟨?_, by simpa [maskPos] using ih.2⟩
              rw [col_filter_true_succ hne j', ih.1, maskPos,
                colNonNACount_succ_tail hne (maskPos m j')]
      | false =>
          have hj' : j < m.countP id := by
            have : (false :: m).countP id = m.countP id := by
              simp [List.countP_cons]
            omega
          have ih := maskPos_spec m (rows.map List.tail) j htlen hj'
          refine ⟨?_, by simpa [maskPos] using ih.2⟩
          rw [col_filter_false hne j, ih.1, maskPos,
            colNonNACount_succ_tail hne (maskPos m j)]

/-- The surviving index entries after row pruning, on the custom-index path. -/
def dcnIdx2 (df : DataFrame) (rt : Nat) (f : Bool) (sp : String) : List PyVal :=
  ((df.index.zip (df.data.map (fun row => row.map (cleanCell f sp)))).filter
    (fun p => rt ≤ rowNonNACount p.2)).map Prod.fst

/-- The final index entries on the custom-index path. -/
def dcnIdx4 (df : DataFrame) (rt ct : Nat) (f : Bool) (sp : String) : List PyVal :=
  if 1 < ct ∧ rt ≠ 0 then
    (((dcnIdx2 df rt f sp).zip (dcnRows3 df rt ct f sp)).filter
      (fun p => 0 < rowNonNACount p.2)).map Prod.fst
  else dcnIdx2 df rt f sp

theorem dcnIdx2_length (df : DataFrame) (rt : Nat) (f : Bool) (sp : String)
    (hIdx : df.index.length = df.data.length) :
    (dcnIdx2 df rt f sp).length = (dcnRows2 df rt f sp).length := by
  have hlen1 : df.index.length
      = (df.data.map (fun row => row.map (cleanCell f sp))).length := by simpa using hIdx
  unfold dcnIdx2 dcnRows2
  rw [← zip_filter_snd (fun r => decide (rt ≤ rowNonNACount r)) hlen1]
  simp

/-- Full characterization of `dataframe_clean_null` in terms of the named
pipeline stages. -/
theorem dcn_eq (df : DataFrame) (rt ct : Nat) (f : Bool) (sp : String)
    (hIdx : df.index.length = df.data.length) :
    dataframe_clean_null df rt ct f sp =
      if index_is_default df then
        ⟨defaultIndex (dcnRows4 df rt ct f sp).length, none,
          filterByMask (dcnMask df rt ct f sp) df.columns, dcnRows4 df rt ct f sp⟩
      else
        ⟨dcnIdx4 df rt ct f sp, df.indexName,
          filterByMask (dcnMask df rt ct f sp) df.columns, dcnRows4 df rt ct f sp⟩ := by
  have hlen1 : df.index.length
      = (df.data.map (fun row => row.map (cleanCell f sp))).length := by simpa using hIdx
  have h2 : (dropRowsBelow rt df.index
      (df.data.map (fun row => row.map (cleanCell f sp)))).2 = dcnRows2 df rt f sp :=
    dropRowsBelow_snd hlen1
  have h1 : (dropRowsBelow rt df.index
      (df.data.map (fun row => row.map (cleanCell f sp)))).1 = dcnIdx2 df rt f sp := rfl
  have hlen2 : (dcnIdx2 df rt f sp).length
      = ((dcnRows2 df rt f sp).map
          (filterByMask (colMask df.columns.length (dcnRows2 df rt f sp) ct))).length := by
    rw [dcnIdx2_length df rt f sp hIdx]
    simp
  have h4snd : (dropAllNARows (dcnIdx2 df rt f sp)
      ((dcnRows2 df rt f sp).map
        (filterByMask (colMask df.columns.length (dcnRows2 df rt f sp) ct)))).2
      = ((dcnRows2 df rt f sp).map
          (filterByMask (colMask df.columns.length (dcnRows2 df rt f sp) ct))).filter
          (fun r => decide (0 < rowNonNACount r)) :=
    dropAllNARows_snd hlen2
  have h4fst : (dropAllNARows (dcnIdx2 df rt f sp)
      ((dcnRows2 df rt f sp).map
        (filterByMask (colMask df.columns.length (dcnRows2 df rt f sp) ct)))).1
      = (((dcnIdx2 df rt f sp).zip
          ((dcnRows2 df rt f sp).map
            (filterByMask (colMask df.columns.length (dcnRows2 df rt f sp) ct)))).filter
          (fun p => 0 < rowNonNACount p.2)).map Prod.fst := rfl
  unfold dataframe_clean_null
  dsimp only [cellClean]
  rw [h2, h1]
  by_cases hc : 1 < ct ∧ rt ≠ 0
  · rw [if_pos hc]
    rw [h4snd, h4fst]
    cases hdef : index_is_default df
    · simp only [Bool.false_eq_true, if_false]
      unfold dcnIdx4 dcnRows4 dcnRows3 dcnMask
      rw [if_pos hc, if_pos hc]
    · simp only [if_true]
      unfold dcnRows4 dcnRows3 dcnMask
      rw [if_pos hc]
  · rw [if_neg hc]
    cases hdef : index_is_default df
    · simp only [Bool.false_eq_true, if_false]
      unfold dcnIdx4 dcnRows4 dcnRows3 dcnMask
      rw [if_neg hc, if_neg hc]
    · simp only [if_true]
      unfold dcnRows4 dcnRows3 dcnMask
      rw [if_neg hc]

theorem defaultIndex_length (n : Nat) : (defaultIndex n).length = n := by
  unfold defaultIndex
  rw [List.length_map, List.length_range]

theorem frame_reassemble (R : DataFrame) :
    (if index_is_default R then
        (⟨defaultIndex R.data.length, none, R.columns, R.data⟩ : DataFrame)
     else ⟨R.index, R.indexName, R.columns, R.data⟩) = R := by
  cases hdef : index_is_default R
  · simp only [Bool.false_eq_true, if_false]
  · simp only [if_true]
    unfold index_is_default at hdef
    rw [Bool.and_eq_true, decide_eq_true_iff, decide_eq_true_iff] at hdef
    rw [← hdef.1, ← hdef.2]

/-- A frame whose cells are normalization fixpoints, whose rows all meet the
row threshold (and are non-empty when required), and whose columns all meet
the column threshold, is a fixed point of `dataframe_clean_null`. -/
theorem dcn_fixed_of (R : DataFrame) (rt ct : Nat) (f : Bool) (sp : String)
    (hIdx : R.index.length = R.data.length)
    (hCells : ∀ row ∈ R.data, ∀ c ∈ row, cleanCell f sp c = c)
    (hRows : ∀ row ∈ R.data, rt ≤ rowNonNACount row)
    (hRowsPos : rt ≠ 0 → ∀ row ∈ R.data, 0 < rowNonNACount row)
    (hLen : ∀ row ∈ R.data, row.length = R.columns.length)
    (hCols : ∀ j < R.columns.length, ct ≤ colNonNACount R.data j) :
    dataframe_clean_null R rt ct f sp = R := by
  have hdata1 : R.data.map (fun row => row.map (cleanCell f sp)) = R.data :=
    map_eq_self_of _ _ (fun row hrow => map_eq_self_of _ _ (hCells row hrow))
  have hrows2 : dcnRows2 R rt f sp = R.data := by
    unfold dcnRows2
    rw [hdata1, List.filter_eq_self.mpr (fun r hr => by simpa using hRows r hr)]
  have hmaskT : ∀ b ∈ colMask R.columns.length R.data ct, b = true := colMask_all_true hCols
  have hmask : dcnMask R rt ct f sp = colMask R.columns.length R.data ct := by
    unfold dcnMask
    rw [hrows2]
  have hcols3 : filterByMask (dcnMask R rt ct f sp) R.columns = R.columns := by
    rw [hmask]
    exact filterByMask_all_true hmaskT (by rw [colMask_length])
  have hrows3 : dcnRows3 R rt ct f sp = R.data := by
    unfold dcnRows3
    rw [hrows2, hmask]
    exact map_eq_self_of _ _
      (fun r hr => filterByMask_all_true hmaskT (by rw [colMask_length, hLen r hr]))
  have hrows4 : dcnRows4 R rt ct f sp = R.data := by
    unfold dcnRows4
    rw [hrows3]
    by_cases hc : 1 < ct ∧ rt ≠ 0
    · rw [if_pos hc, List.filter_eq_self.mpr (fun r hr => by simpa using hRowsPos hc.2 r hr)]
    · rw [if_neg hc]
  have hidx2 : dcnIdx2 R rt f sp = R.index := by
    unfold dcnIdx2
    rw [hdata1]
    exact zip_filter_fst_all (fun r => decide (rt ≤ rowNonNACount r)) hIdx
      (fun r hr => by simpa using hRows r hr)
  have hidx4 : dcnIdx4 R rt ct f sp = R.index := by
    unfold dcnIdx4
    by_cases hc : 1 < ct ∧ rt ≠ 0
    · rw [if_pos hc, hidx2, hrows3]
      exact zip_filter_fst_all (fun r => decide (0 < rowNonNACount r)) hIdx
        (fun r hr => by simpa using hRowsPos hc.2 r hr)
    · rw [if_neg hc, hidx2]
  rw [dcn_eq R rt ct f sp hIdx, hrows4, hcols3, hidx4]
  exact frame_reassemble R

theorem dcnRows4_subset {df : DataFrame} {rt ct : Nat} {f : Bool} {sp : String} {row : List PyVal}
    (h : row ∈ dcnRows4 df rt ct f sp) : row ∈ dcnRows3 df rt ct f sp := by
  unfold dcnRows4 at h
  by_cases hc : 1 < ct ∧ rt ≠ 0
  · rw [if_pos hc] at h
    exact List.mem_of_mem_filter h
  · rwa [if_neg hc] at h

theorem dcnRows3_mem {df : DataFrame} {rt ct : Nat} {f : Bool} {sp : String} {row : List PyVal}
    (h : row ∈ dcnRows3 df rt ct f sp) :
    ∃ r ∈ dcnRows2 df rt f sp, row = filterByMask (dcnMask df rt ct f sp) r := by
  obtain ⟨r, hr, rfl⟩ := List.mem_map.mp h
  exact ⟨r, hr, rfl⟩

theorem dcnRows2_mem {df : DataFrame} {rt : Nat} {f : Bool} {sp : String} {r : List PyVal}
    (h : r ∈ dcnRows2 df rt f sp) :
    (∃ r0 ∈ df.data, r = r0.map (cleanCell f sp)) ∧ rt ≤ rowNonNACount r := by
  have h2 := List.mem_filter.mp h
  obtain ⟨r0, hr0, rfl⟩ := List.mem_map.mp h2.1
  exact ⟨⟨r0, hr0, rfl⟩, by simpa using h2.2⟩

theorem dcnRows2_length {df : DataFrame} {rt : Nat} {f : Bool} {sp : String} {r : List PyVal}
    (hwf : ∀ row ∈ df.data, row.length = df.columns.length)
    (h : r ∈ dcnRows2 df rt f sp) : r.length = df.columns.length := by
  obtain ⟨⟨r0, hr0, rfl⟩, _⟩ := dcnRows2_mem h
  simpa using hwf r0 hr0

theorem dcnMask_length (df : DataFrame) (rt ct : Nat) (f : Bool) (sp : String) :
    (dcnMask df rt ct f sp).length = df.columns.length := colMask_length _ _ _

/-- Cells of the cleaned grid are fixpoints of the cell normalization. -/
theorem dcn_cells_fixed (df : DataFrame) (rt ct : Nat) (f : Bool) (sp : String) :
    ∀ row ∈ dcnRows4 df rt ct f sp, ∀ c ∈ row, cleanCell f sp c = c := by
  intro row hrow c hc
  obtain ⟨r, hr, rfl⟩ := dcnRows3_mem (dcnRows4_subset hrow)
  have hcr : c ∈ r := filterByMask_subset hc
  obtain ⟨⟨r0, hr0, rfl⟩, _⟩ := dcnRows2_mem hr
  obtain ⟨c0, _, rfl⟩ := List.mem_map.mp hcr
  exact cleanCell_idem f sp c0

/-- Every row of the cleaned grid meets the row threshold, provided either
threshold is at most one. -/
theorem dcn_rows_meet (df : DataFrame) (rt ct : Nat) (f : Bool) (sp : String)
    (hwf : ∀ row ∈ df.data, row.length = df.columns.length) (h : rt ≤ 1 ∨ ct ≤ 1) :
    ∀ row ∈ dcnRows4 df rt ct f sp, rt ≤ rowNonNACount row := by
  intro row hrow
  rcases Nat.eq_zero_or_pos rt with hrt0 | hrtpos
  · simp [hrt0]
  by_cases hct : ct ≤ 1
  · obtain ⟨r, hr, rfl⟩ := dcnRows3_mem (dcnRows4_subset hrow)
    obtain ⟨_, hcnt⟩ := dcnRows2_mem hr
    have hrlen : r.length = df.columns.length := dcnRows2_length hwf hr
    have heq : rowNonNACount (filterByMask (dcnMask df rt ct f sp) r) = rowNonNACount r := by
      apply filterByMask_rowCount_eq (by rw [dcnMask_length, hrlen])
      intro j c hmj hrj
      have hjlt : j < df.columns.length := by
        have : j < (dcnMask df rt ct f sp).length := by
          by_contra hge
          rw [List.get?_eq_none.mpr (by omega)] at hmj
          simp at hmj
        rwa [dcnMask_length] at this
      rw [show dcnMask df rt ct f sp = colMask df.columns.length (dcnRows2 df rt f sp) ct
        from rfl, colMask_get hjlt] at hmj
      have hcol : colNonNACount (dcnRows2 df rt f sp) j = 0 := by
        have : ¬(ct ≤ colNonNACount (dcnRows2 df rt f sp) j) := by
          intro hle
          simp [hle] at hmj
        omega
      have hall := List.countP_eq_zero.mp hcol r hr
      have hrj' : r[j]? = some c := by simpa using hrj
      simp [hrj'] at hall
      simpa using hall
    omega
  · have hrt1 : rt = 1 := by
      rcases h with h1 | h1
      · omega
      · omega
    unfold dcnRows4 at hrow
    rw [if_pos ⟨by omega, by omega⟩] at hrow
    have := (List.mem_filter.mp hrow).2
    simp at this
    omega

/-- Every column of the cleaned grid meets the column threshold. -/
theorem dcn_cols_meet (df : DataFrame) (rt ct : Nat) (f : Bool) (sp : String)
    (hwf : ∀ row ∈ df.data, row.length = df.columns.length) :
    ∀ j < (filterByMask (dcnMask df rt ct f sp) df.columns).length,
      ct ≤ colNonNACount (dcnRows4 df rt ct f sp) j := by
  intro j hj
  have hstep4 : colNonNACount (dcnRows4 df rt ct f sp) j
      = colNonNACount (dcnRows3 df rt ct f sp) j := by
    unfold dcnRows4
    by_cases hc : 1 < ct ∧ rt ≠ 0
    · rw [if_pos hc]
      apply countP_filter_eq
      intro r hr hkeep
      have hcnt : rowNonNACount r = 0 := by
        have : ¬(0 < rowNonNACount r) := by
          intro hpos
          simp [hpos] at hkeep
        omega
      rcases hrj : r[j]? with _ | c
      · simp [hrj]
      · have hcm : c ∈ r := by
          have := List.getElem?_eq_some_iff.mp hrj
          obtain ⟨hlt, hget⟩ := this
          exact hget ▸ List.getElem_mem hlt
        have := List.countP_eq_zero.mp hcnt c hcm
        simp [hrj]
        simpa using this
    · rw [if_neg hc]
  have hjlt : j < (dcnMask df rt ct f sp).countP id := by
    rw [← @filterByMask_length PyVal (dcnMask df rt ct f sp) df.columns (by rw [dcnMask_length])]
    exact hj
  have hlenrows : ∀ r ∈ dcnRows2 df rt f sp, r.length = (dcnMask df rt ct f sp).length := by
    intro r hr
    rw [dcnMask_length]
    exact dcnRows2_length hwf hr
  have hspec := maskPos_spec (dcnMask df rt ct f sp) (dcnRows2 df rt f sp) j hlenrows hjlt
  rw [hstep4]
  have h3 : colNonNACount (dcnRows3 df rt ct f sp) j
      = colNonNACount ((dcnRows2 df rt f sp).map (filterByMask (dcnMask df rt ct f sp))) j :=
    rfl
  rw [h3, hspec.1]
  have hposlt : maskPos (dcnMask df rt ct f sp) j < df.columns.length := by
    have : maskPos (dcnMask df rt ct f sp) j < (dcnMask df rt ct f sp).length := by
      by_contra hge
      rw [List.get?_eq_none.mpr (by omega)] at hspec
      simp at hspec
    rwa [dcnMask_length] at this
  have hget2 : (dcnMask df rt ct f sp).get? (maskPos (dcnMask df rt ct f sp) j)
      = some (decide (ct ≤ colNonNACount (dcnRows2 df rt f sp)
          (maskPos (dcnMask df rt ct f sp) j))) := colMask_get hposlt
  have := Option.some.inj (hspec.2.symm.trans hget2)
  simpa using this.symm

theorem dcnIdx4_length (df : DataFrame) (rt ct : Nat) (f : Bool) (sp : String)
    (hIdx : df.index.length = df.data.length) :
    (dcnIdx4 df rt ct f sp).length = (dcnRows4 df rt ct f sp).length := by
  have hl : (dcnIdx2 df rt f sp).length = (dcnRows3 df rt ct f sp).length := by
    rw [dcnIdx2_length df rt f sp hIdx]
    unfold dcnRows3
    simp
  unfold dcnIdx4 dcnRows4
  by_cases hc : 1 < ct ∧ rt ≠ 0
  · rw [if_pos hc, if_pos hc]
    have := congrArg List.length
      (zip_filter_snd (fun r => decide (0 < rowNonNACount r)) hl)
    simp only [List.length_map] at this ⊢
    exact this
  · rw [if_neg hc, if_neg hc]
    exact hl

theorem dcn_index_length (df : DataFrame) (rt ct : Nat) (f : Bool) (sp : String)
    (hIdx : df.index.length = df.data.length) :
    (dataframe_clean_null df rt ct f sp).index.length
      = (dataframe_clean_null df rt ct f sp).data.length := by
  rw [dcn_eq df rt ct f sp hIdx]
  cases hdef : index_is_default df
  · simp only [Bool.false_eq_true, if_false]
    exact dcnIdx4_length df rt ct f sp hIdx
  · simp only [if_true]
    exact defaultIndex_length _

theorem dcn_row_length (df : DataFrame) (rt ct : Nat) (f : Bool) (sp : String)
    (hwf : ∀ row ∈ df.data, row.length = df.columns.length) :
    ∀ row ∈ dcnRows4 df rt ct f sp,
      row.length = (filterByMask (dcnMask df rt ct f sp) df.columns).length := by
  intro row hrow
  obtain ⟨r, hr, rfl⟩ := dcnRows3_mem (dcnRows4_subset hrow)
  rw [filterByMask_length (by rw [dcnMask_length]; exact (dcnRows2_length hwf hr).symm),
    @filterByMask_length PyVal (dcnMask df rt ct f sp) df.columns (by rw [dcnMask_length])]

/-- C2 (counterexample): with `empty_row_thresh = empty_column_thresh = 2`,
running `dataframe_clean_null` twice differs from running it once — the
first run leaves rows with a single populated cell (the documented effect
of column pruning), and the second run then deletes them. -/
theorem dataframe_clean_null_not_idempotent :
    dataframe_clean_null
        (dataframe_clean_null
          (⟨defaultIndex 2, none, [vStr "a", vStr "b", vStr "c"],
            [[vInt 1, vInt 2, vNan], [vInt 3, vNan, vInt 4]]⟩ : DataFrame) 2 2 false "")
        2 2 false "" ≠
      dataframe_clean_null
        (⟨defaultIndex 2, none, [vStr "a", vStr "b", vStr "c"],
          [[vInt 1, vInt 2, vNan], [vInt 3, vNan, vInt 4]]⟩ : DataFrame) 2 2 false "" := by
  decide

/-- C2 (amended): `dataframe_clean_null` is idempotent on every well-formed
table provided `empty_row_thresh ≤ 1` or `empty_column_thresh ≤ 1` (so that
column pruning cannot leave a surviving row below the row threshold). -/
theorem dataframe_clean_null_idempotent (df : DataFrame) (rt ct : Nat) (f : Bool)
    (sp : String) (hwf : df.Wf) (h : rt ≤ 1 ∨ ct ≤ 1) :
    dataframe_clean_null (dataframe_clean_null df rt ct f sp) rt ct f sp
      = dataframe_clean_null df rt ct f sp := by
  have hdata : (dataframe_clean_null df rt ct f sp).data = dcnRows4 df rt ct f sp :=
    dcn_data df rt ct f sp hwf.1
  have hcols : (dataframe_clean_null df rt ct f sp).columns
      = filterByMask (dcnMask df rt ct f sp) df.columns := dcn_columns df rt ct f sp hwf.1
  apply dcn_fixed_of
  · exact dcn_index_length df rt ct f sp hwf.1
  · rw [hdata]
    exact dcn_cells_fixed df rt ct f sp
  · rw [hdata]
    exact dcn_rows_meet df rt ct f sp hwf.2 h
  · intro hrt row hrow
    rw [hdata] at hrow
    have := dcn_rows_meet df rt ct f sp hwf.2 h row hrow
    omega
  · rw [hdata, hcols]
    exact dcn_row_length df rt ct f sp hwf.2
  · rw [hdata, hcols]
    exact dcn_cols_meet df rt ct f sp hwf.2

theorem dataframe_clean_null_idempotent_witness :
    dataframe_clean_null
        (dataframe_clean_null
          (⟨defaultIndex 2, none, [vStr "a", vStr "b"],
            [[vStr "x", vStr "null"], [vStr "", vStr ""]]⟩ : DataFrame) 1 1 false "")
        1 1 false "" =
      dataframe_clean_null
        (⟨defaultIndex 2, none, [vStr "a", vStr "b"],
          [[vStr "x", vStr "null"], [vStr "", vStr ""]]⟩ : DataFrame) 1 1 false "" :=
  dataframe_clean_null_idempotent
    (⟨defaultIndex 2, none, [vStr "a", vStr "b"],
      [[vStr "x", vStr "null"], [vStr "", vStr ""]]⟩ : DataFrame)
    1 1 false "" (by decide) (Or.inl (by decide))

/-- Number of occurrences of label `l` among `cols`. -/
def labelCount (cols : List PyVal) (l : PyVal) : Nat :=
  cols.countP (fun c => decide (c = l))

/-- Keep-first-occurrence deduplication with an accumulator of already-seen
values (the determinization of Python's `set(...)` iteration order used by
this embedding). -/
def dedupFirstAux (seen : List PyVal) : List PyVal → List PyVal
  | [] => []
  | v :: rest =>
      if v ∈ seen then dedupFirstAux seen rest
      else v :: dedupFirstAux (v :: seen) rest

/-- Keep the first occurrence of every value. -/
def dedupFirst (xs : List PyVal) : List PyVal := dedupFirstAux [] xs

/-- The per-row values collected for label `l` across all of its columns, in
column order, with NA cells removed
(`[x for x in cell if not pd.isnull(x)]`). -/
def collectVals (l : PyVal) (pairs : List (PyVal × PyVal)) : List PyVal :=
  ((pairs.filter (fun p => decide (p.1 = l))).map Prod.snd).filter (fun v => !(isNA v))

/-- The combined cell stored in the merged column: the list of collected
values, or — when `deduplicate_values` is set — `set(cell)`: the
first-inserted representative of each Python-`==` equivalence class
(`pySetD`).  `set(cell)` additionally raises `TypeError` when a collected
value is unhashable; `merge_one_label` tests for that case before using
this value. -/
def mergedVal (deduplicate_values : Bool) (l : PyVal) (pairs : List (PyVal × PyVal)) : PyVal :=
  if deduplicate_values then vSet (pySetD [] (collectVals l pairs))
  else vList (collectVals l pairs)

/-- Replace the first pair labelled `l` by `(l, m)` and drop every later pair
labelled `l`: the net effect on one row of `df.insert(first_iloc, 'temp',
temp_column)` followed by `df.drop(columns=label)` and renaming `'temp'`
back to `label` (for `label is None` the source routes the drop through a
placeholder label; the net effect is the same). -/
def replaceFirstDropRest (l m : PyVal) : List (PyVal × PyVal) → List (PyVal × PyVal)
  | [] => []
  | (c, v) :: rest =>
      if c = l then (c, m) :: rest.filter (fun p => decide (p.1 ≠ l))
      else (c, v) :: replaceFirstDropRest l m rest

/-- The same transformation on the column labels alone. -/
def removeDupsOf (l : PyVal) : List PyVal → List PyVal
  | [] => []
  | c :: rest =>
      if c = l then c :: rest.filter (fun x => decide (x ≠ l))
      else c :: removeDupsOf l rest

/-- The net effect of one exception-free loop iteration (the bridging lemma
`merge_one_label_ok` below): the first column of the label receives the
merged per-row values and keeps its position and label, every other column
of the label disappears, everything else is untouched. -/
def mergeNet (deduplicate_values : Bool) (df : DataFrame) (l : PyVal) : DataFrame :=
  { df with
    columns := removeDupsOf l df.columns,
    data := df.data.map (fun row =>
      (replaceFirstDropRest l (mergedVal deduplicate_values l (df.columns.zip row))
        (df.columns.zip row)).map Prod.snd) }

/-- One row of the Column Merger's specified result, walking the labelled
cells left to right: a later occurrence of an already-seen label is removed;
the first occurrence of a label occurring more than once receives the
combined per-row value; a label occurring exactly once keeps its cell. -/
def specRow (deduplicate_values : Bool) (cols : List PyVal) (allPairs : List (PyVal × PyVal)) :
    List PyVal → List (PyVal × PyVal) → List PyVal
  | _, [] => []
  | seen, (c, v) :: rest =>
      if c ∈ seen then specRow deduplicate_values cols allPairs seen rest
      else if 2 ≤ labelCount cols c then
        mergedVal deduplicate_values c allPairs ::
          specRow deduplicate_values cols allPairs (c :: seen) rest
      else v :: specRow deduplicate_values cols allPairs (c :: seen) rest

/-- The Column Merger's contract as specified (§4.5 of the spec): every
label keeps only its first occurrence, in place and with its original label;
first occurrences of duplicated labels hold the per-row combined values;
everything else is untouched. -/
def mergeSpec (df : DataFrame) (deduplicate_values : Bool) : DataFrame :=
  { df with
    columns := dedupFirst df.columns,
    data := df.data.map (fun row =>
      specRow deduplicate_values df.columns (df.columns.zip row) [] (df.columns.zip row)) }

theorem zip_map_fst_snd {α β : Type} : ∀ l : List (α × β), (l.map Prod.fst).zip (l.map Prod.snd) = l
  | [] => rfl
  | (a, b) :: rest => by
      simp [zip_map_fst_snd rest]

theorem dedupFirstAux_skip_filtered {l : PyVal} :
    ∀ (seen : List PyVal) (rest : List PyVal), l ∈ seen →
      dedupFirstAux seen (rest.filter (fun x => decide (x ≠ l))) = dedupFirstAux seen rest
  | seen, [], _ => rfl
  | seen, x :: rest, hl => by
      rw [List.filter_cons]
      by_cases hx : x = l
      · subst hx
        have hd : ¬((decide (x ≠ x)) = true) := by simp
        rw [if_neg hd]
        rw [dedupFirstAux_skip_filtered seen rest hl]
        rw [show dedupFirstAux seen (x :: rest) = dedupFirstAux seen rest from by
          simp [dedupFirstAux, hl]]
      · have hd : (decide (x ≠ l)) = true := by simp [hx]
        rw [if_pos hd, dedupFirstAux, dedupFirstAux]
        by_cases hxs : x ∈ seen
        · rw [if_pos hxs, if_pos hxs]
          exact dedupFirstAux_skip_filtered seen rest hl
        · rw [if_neg hxs, if_neg hxs,
            dedupFirstAux_skip_filtered (x :: seen) rest (List.mem_cons_of_mem x hl)]

theorem dedupFirstAux_removeDupsOf {l : PyVal} :
    ∀ (seen : List PyVal) (cols : List PyVal),
      dedupFirstAux seen (removeDupsOf l cols) = dedupFirstAux seen cols
  | seen, [] => rfl
  | seen, c :: cols => by
      rw [removeDupsOf]
      by_cases hc : c = l
      · subst hc
        rw [if_pos rfl, dedupFirstAux, dedupFirstAux]
        by_cases hcs : c ∈ seen
        · rw [if_pos hcs, if_pos hcs]
          exact dedupFirstAux_skip_filtered seen cols hcs
        · rw [if_neg hcs, if_neg hcs,
            dedupFirstAux_skip_filtered (c :: seen) cols (List.mem_cons_self c seen)]
      · rw [if_neg hc, dedupFirstAux, dedupFirstAux]
        by_cases hcs : c ∈ seen
        · rw [if_pos hcs, if_pos hcs]
          exact dedupFirstAux_removeDupsOf seen cols
        · rw [if_neg hcs, if_neg hcs]
          rw [dedupFirstAux_removeDupsOf (c :: seen) cols]

theorem labelCount_filter_ne {l c : PyVal} (hc : c ≠ l) (rest : List PyVal) :
    labelCount (rest.filter (fun x => decide (x ≠ l))) c = labelCount rest c := by
  unfold labelCount
  rw [List.countP_filter]
  apply countP_congr_of
  intro a _
  by_cases ha : a = c
  · subst ha
    simp [hc]
  · simp [ha]

theorem labelCount_removeDupsOf_ne {l c : PyVal} (hc : c ≠ l) :
    ∀ cols : List PyVal, labelCount (removeDupsOf l cols) c = labelCount cols c
  | [] => rfl
  | a :: cols => by
      rw [removeDupsOf]
      by_cases ha : a = l
      · subst ha
        rw [if_pos rfl]
        unfold labelCount
        rw [List.countP_cons, List.countP_cons]
        have := labelCount_filter_ne hc cols
        unfold labelCount at this
        omega
      · rw [if_neg ha]
        unfold labelCount
        rw [List.countP_cons, List.countP_cons]
        have := labelCount_removeDupsOf_ne hc cols
        unfold labelCount at this
        omega

theorem labelCount_filter_self (l : PyVal) (rest : List PyVal) :
    labelCount (rest.filter (fun x => decide (x ≠ l))) l = 0 := by
  unfold labelCount
  rw [List.countP_filter]
  apply List.countP_eq_zero.mpr
  intro a _
  by_cases ha : a = l <;> simp [ha]

theorem labelCount_removeDupsOf_self (l : PyVal) :
    ∀ cols : List PyVal, labelCount (removeDupsOf l cols) l ≤ 1
  | [] => by simp [removeDupsOf, labelCount]
  | a :: cols => by
      rw [removeDupsOf]
      by_cases ha : a = l
      · subst ha
        rw [if_pos rfl]
        unfold labelCount
        rw [List.countP_cons]
        have := labelCount_filter_self a cols
        unfold labelCount at this
        simp [this]
      · rw [if_neg ha]
        unfold labelCount
        rw [List.countP_cons]
        have := labelCount_removeDupsOf_self l cols
        unfold labelCount at this
        simp [ha]
        omega

theorem map_fst_filter_ne (c : PyVal) :
    ∀ rest : List (PyVal × PyVal),
      (rest.filter (fun p => decide (p.1 ≠ c))).map Prod.fst
        = (rest.map Prod.fst).filter (fun x => decide (x ≠ c))
  | [] => rfl
  | p :: rest => by
      rw [List.filter_cons, List.map_cons, List.filter_cons]
      by_cases hp : p.1 = c
      · have h1 : ¬((decide (p.1 ≠ c)) = true) := by simp [hp]
        rw [if_neg h1, if_neg h1]
        exact map_fst_filter_ne c rest
      · have h1 : (decide (p.1 ≠ c)) = true := by simp [hp]
        rw [if_pos h1, if_pos h1, List.map_cons, map_fst_filter_ne c rest]

theorem replaceFirstDropRest_map_fst (l m : PyVal) :
    ∀ pairs : List (PyVal × PyVal),
      (replaceFirstDropRest l m pairs).map Prod.fst = removeDupsOf l (pairs.map Prod.fst)
  | [] => rfl
  | (c, v) :: rest => by
      rw [replaceFirstDropRest]
      by_cases hc : c = l
      · subst hc
        rw [if_pos rfl, List.map_cons, List.map_cons, removeDupsOf, if_pos rfl]
        congr 1
        exact map_fst_filter_ne c rest
      · rw [if_neg hc, List.map_cons, List.map_cons, removeDupsOf, if_neg hc,
          replaceFirstDropRest_map_fst l m rest]

theorem filter_ne_then_eq {a c : PyVal} (hc : ¬(c = a)) :
    ∀ rest : List (PyVal × PyVal),
      (rest.filter (fun p => decide (p.1 ≠ a))).filter (fun p => decide (p.1 = c))
        = rest.filter (fun p => decide (p.1 = c))
  | [] => rfl
  | p :: rest => by
      rw [List.filter_cons]
      by_cases hp : p.1 = a
      · have h1 : ¬((decide (p.1 ≠ a)) = true) := by simp [hp]
        rw [if_neg h1, filter_ne_then_eq hc rest, List.filter_cons]
        have hpc : ¬(p.1 = c) := fun h => hc (h ▸ hp)
        have h2 : ¬((decide (p.1 = c)) = true) := by simp [hpc]
        rw [if_neg h2]
      · have h1 : (decide (p.1 ≠ a)) = true := by simp [hp]
        rw [if_pos h1, List.filter_cons, List.filter_cons]
        by_cases hpc : p.1 = c
        · have h2 : (decide (p.1 = c)) = true := decide_eq_true hpc
          rw [if_pos h2, if_pos h2, filter_ne_then_eq hc rest]
        · have h2 : ¬((decide (p.1 = c)) = true) := by simp [hpc]
          rw [if_neg h2, if_neg h2]
          exact filter_ne_then_eq hc rest

theorem replaceFirstDropRest_filter_ne {l c : PyVal} (m : PyVal) (hc : c ≠ l) :
    ∀ pairs : List (PyVal × PyVal),
      (replaceFirstDropRest l m pairs).filter (fun p => decide (p.1 = c))
        = pairs.filter (fun p => decide (p.1 = c))
  | [] => rfl
  | (a, v) :: rest => by
      rw [replaceFirstDropRest]
      by_cases ha : a = l
      · subst ha
        rw [if_pos rfl, List.filter_cons, List.filter_cons]
        have hac : ¬(a = c) := fun h => hc h.symm
        have h1 : ¬((decide ((a, m).1 = c)) = true) := by simp [hac]
        have h2 : ¬((decide ((a, v).1 = c)) = true) := by simp [hac]
        rw [if_neg h1, if_neg h2]
        exact filter_ne_then_eq hc rest
      · rw [if_neg ha, List.filter_cons, List.filter_cons]
        by_cases hac : a = c
        · have h2 : (decide ((a, v).1 = c)) = true := decide_eq_true hac
          rw [if_pos h2, if_pos h2, replaceFirstDropRest_filter_ne m hc rest]
        · have h2 : ¬((decide ((a, v).1 = c)) = true) := by simp [hac]
          rw [if_neg h2, if_neg h2]
          exact replaceFirstDropRest_filter_ne m hc rest

theorem mergedVal_replaceFirst_ne {l c : PyVal} (m : PyVal) (hc : c ≠ l) (d : Bool)
    (pairs : List (PyVal × PyVal)) :
    mergedVal d c (replaceFirstDropRest l m pairs) = mergedVal d c pairs := by
  unfold mergedVal collectVals
  rw [replaceFirstDropRest_filter_ne m hc pairs]

theorem replaceFirstDropRest_length (l m : PyVal) (pairs : List (PyVal × PyVal)) :
    (replaceFirstDropRest l m pairs).length = (removeDupsOf l (pairs.map Prod.fst)).length := by
  rw [← replaceFirstDropRest_map_fst l m pairs, List.length_map]

theorem specRow_cons (d : Bool) (cols : List PyVal) (allPairs : List (PyVal × PyVal))
    (seen : List PyVal) (c v : PyVal) (rest : List (PyVal × PyVal)) :
    specRow d cols allPairs seen ((c, v) :: rest)
      = if c ∈ seen then specRow d cols allPairs seen rest
        else if 2 ≤ labelCount cols c then
          mergedVal d c allPairs :: specRow d cols allPairs (c :: seen) rest
        else v :: specRow d cols allPairs (c :: seen) rest := rfl

theorem nodup_of_labelCount_le : ∀ cols : List PyVal, (∀ c, labelCount cols c ≤ 1) → cols.Nodup
  | [], _ => List.nodup_nil
  | a :: rest, h => by
      refine List.nodup_cons.mpr ⟨?_, nodup_of_labelCount_le rest ?_⟩
      · intro hmem
        have ha := h a
        unfold labelCount at ha
        rw [List.countP_cons] at ha
        have hpos : 0 < rest.countP (fun c => decide (c = a)) :=
          List.countP_pos.mpr ⟨a, hmem, by simp⟩
        have hpa : (decide (a = a)) = true := by simp
        rw [if_pos hpa] at ha
        omega
      · intro c
        have hc := h c
        unfold labelCount at hc ⊢
        rw [List.countP_cons] at hc
        omega

theorem dedupFirstAux_eq_self : ∀ (seen l : List PyVal),
    (∀ x ∈ l, x ∉ seen) → l.Nodup → dedupFirstAux seen l = l
  | _, [], _, _ => rfl
  | seen, v :: rest, hd, hn => by
      rw [dedupFirstAux, if_neg (hd v (List.mem_cons_self v rest))]
      congr 1
      refine dedupFirstAux_eq_self (v :: seen) rest ?_ (List.nodup_cons.mp hn).2
      intro x hx hmem
      rcases List.mem_cons.mp hmem with rfl | h
      · exact (List.nodup_cons.mp hn).1 hx
      · exact hd x (List.mem_cons_of_mem v hx) h

theorem specRow_eq_self (d : Bool) (cols : List PyVal) (allPairs : List (PyVal × PyVal)) :
    ∀ (seen : List PyVal) (pairs : List (PyVal × PyVal)),
      (∀ p ∈ pairs, p.1 ∉ seen) →
      (pairs.map Prod.fst).Nodup →
      (∀ p ∈ pairs, ¬ (2 ≤ labelCount cols p.1)) →
      specRow d cols allPairs seen pairs = pairs.map Prod.snd
  | _, [], _, _, _ => rfl
  | seen, (c, v) :: rest, hseen, hnod, hcnt => by
      rw [specRow_cons, if_neg (hseen (c, v) (List.mem_cons_self _ _)),
        if_neg (hcnt (c, v) (List.mem_cons_self _ _)), List.map_cons]
      congr 1
      have hnod' : (c :: rest.map Prod.fst).Nodup := by simpa using hnod
      refine specRow_eq_self d cols allPairs (c :: seen) rest ?_
        (List.nodup_cons.mp hnod').2 ?_
      · intro p hp hmem
        rcases List.mem_cons.mp hmem with h | h
        · exact (List.nodup_cons.mp hnod').1 (h ▸ List.mem_map_of_mem Prod.fst hp)
        · exact hseen p (List.mem_cons_of_mem _ hp) h
      · intro p hp
        exact hcnt p (List.mem_cons_of_mem _ hp)

theorem mergeSpec_eq_self (d : Bool) (df : DataFrame)
    (hlen : ∀ row ∈ df.data, row.length = df.columns.length)
    (hcnt : ∀ c, labelCount df.columns c ≤ 1) : mergeSpec df d = df := by
  have hnd : df.columns.Nodup := nodup_of_labelCount_le df.columns hcnt
  obtain ⟨idx, nm, cols, rows⟩ := df
  dsimp only at hlen hcnt hnd
  unfold mergeSpec
  dsimp only
  congr 1
  · exact dedupFirstAux_eq_self [] cols (fun x _ h => absurd h (List.not_mem_nil x)) hnd
  · refine (map_congr_of _ id rows ?_).trans (List.map_id rows)
    intro row hrow
    show specRow d cols (cols.zip row) [] (cols.zip row) = row
    have hr : row.length = cols.length := hlen row hrow
    have hfst : (cols.zip row).map Prod.fst = cols :=
      List.map_fst_zip cols row (le_of_eq hr.symm)
    rw [specRow_eq_self d cols (cols.zip row) [] (cols.zip row)
      (fun p _ h => absurd h (List.not_mem_nil _))
      (by rw [hfst]; exact hnd)
      (fun p _ h => absurd h (by have := hcnt p.1; omega))]
    exact List.map_snd_zip cols row (le_of_eq hr)

theorem specRow_filter_seen {l : PyVal} (d : Bool) (cols : List PyVal) (m : PyVal)
    (P : List (PyVal × PyVal)) :
    ∀ (seen : List PyVal) (rest : List (PyVal × PyVal)), l ∈ seen →
      specRow d (removeDupsOf l cols) (replaceFirstDropRest l m P) seen
          (rest.filter (fun p => decide (p.1 ≠ l)))
        = specRow d cols P seen rest
  | _, [], _ => rfl
  | seen, (c, v) :: rest, hseen => by
      rw [List.filter_cons]
      by_cases hc : c = l
      · subst hc
        have h1 : ¬((decide ((c, v).1 ≠ c)) = true) := by simp
        rw [if_neg h1, specRow_cons, if_pos hseen]
        exact specRow_filter_seen d cols m P seen rest hseen
      · have h1 : (decide ((c, v).1 ≠ l)) = true := by simp [hc]
        rw [if_pos h1, specRow_cons, specRow_cons]
        by_cases hcs : c ∈ seen
        · rw [if_pos hcs, if_pos hcs]
          exact specRow_filter_seen d cols m P seen rest hseen
        · rw [if_neg hcs, if_neg hcs, labelCount_removeDupsOf_ne hc cols]
          by_cases hcnt : 2 ≤ labelCount cols c
          · rw [if_pos hcnt, if_pos hcnt, mergedVal_replaceFirst_ne m hc d P,
              specRow_filter_seen d cols m P (c :: seen) rest (List.mem_cons_of_mem c hseen)]
          · rw [if_neg hcnt, if_neg hcnt,
              specRow_filter_seen d cols m P (c :: seen) rest (List.mem_cons_of_mem c hseen)]

theorem specRow_replaceFirst {l : PyVal} (d : Bool) (cols : List PyVal)
    (P : List (PyVal × PyVal)) (hcnt2 : 2 ≤ labelCount cols l) :
    ∀ (seen : List PyVal) (rest : List (PyVal × PyVal)), l ∉ seen →
      specRow d (removeDupsOf l cols) (replaceFirstDropRest l (mergedVal d l P) P) seen
          (replaceFirstDropRest l (mergedVal d l P) rest)
        = specRow d cols P seen rest
  | _, [], _ => rfl
  | seen, (c, v) :: rest, hns => by
      rw [replaceFirstDropRest]
      by_cases hc : c = l
      · subst hc
        rw [if_pos rfl, specRow_cons, specRow_cons, if_neg hns, if_neg hns]
        have hle : labelCount (removeDupsOf c cols) c ≤ 1 :=
          labelCount_removeDupsOf_self c cols
        have hn2 : ¬ (2 ≤ labelCount (removeDupsOf c cols) c) := by omega
        rw [if_neg hn2, if_pos hcnt2]
        congr 1
        exact specRow_filter_seen d cols (mergedVal d c P) P (c :: seen) rest
          (List.mem_cons_self c seen)
      · rw [if_neg hc, specRow_cons, specRow_cons]
        have hns' : l ∉ c :: seen := by
          intro hmem
          rcases List.mem_cons.mp hmem with h | h
          · exact hc h.symm
          · exact hns h
        by_cases hcs : c ∈ seen
        · rw [if_pos hcs, if_pos hcs]
          exact specRow_replaceFirst d cols P hcnt2 seen rest hns
        · rw [if_neg hcs, if_neg hcs, labelCount_removeDupsOf_ne hc cols]
          by_cases h2 : 2 ≤ labelCount cols c
          · rw [if_pos h2, if_pos h2, mergedVal_replaceFirst_ne (mergedVal d l P) hc d P]
            congr 1
            exact specRow_replaceFirst d cols P hcnt2 (c :: seen) rest hns'
          · rw [if_neg h2, if_neg h2]
            congr 1
            exact specRow_replaceFirst d cols P hcnt2 (c :: seen) rest hns'

theorem mergeNet_len (d : Bool) (df : DataFrame) (l : PyVal)
    (hlen : ∀ row ∈ df.data, row.length = df.columns.length) :
    ∀ row ∈ (mergeNet d df l).data,
      row.length = (mergeNet d df l).columns.length := by
  intro row hrow
  unfold mergeNet at hrow ⊢
  dsimp only at hrow ⊢
  rcases List.mem_map.mp hrow with ⟨r, hr, rfl⟩
  rw [List.length_map, replaceFirstDropRest_length,
    List.map_fst_zip df.columns r (le_of_eq (hlen r hr).symm)]

theorem merge_one_absorb (d : Bool) (df : DataFrame) (l : PyVal)
    (hlen : ∀ row ∈ df.data, row.length = df.columns.length)
    (hcnt : 2 ≤ labelCount df.columns l) :
    mergeSpec (mergeNet d df l) d = mergeSpec df d := by
  obtain ⟨idx, nm, cols, rows⟩ := df
  dsimp only at hlen hcnt
  unfold mergeSpec mergeNet
  dsimp only
  congr 1
  · exact dedupFirstAux_removeDupsOf [] cols
  · rw [List.map_map]
    apply map_congr_of
    intro row hrow
    dsimp only [Function.comp]
    have hr : row.length = cols.length := hlen row hrow
    have hfst : (replaceFirstDropRest l (mergedVal d l (cols.zip row)) (cols.zip row)).map
        Prod.fst = removeDupsOf l cols := by
      rw [replaceFirstDropRest_map_fst,
        List.map_fst_zip cols row (le_of_eq hr.symm)]
    have hzip : (removeDupsOf l cols).zip
        ((replaceFirstDropRest l (mergedVal d l (cols.zip row)) (cols.zip row)).map Prod.snd)
        = replaceFirstDropRest l (mergedVal d l (cols.zip row)) (cols.zip row) := by
      rw [← hfst]
      exact zip_map_fst_snd _
    rw [hzip]
    exact specRow_replaceFirst d cols (cols.zip row) hcnt [] (cols.zip row)
      (List.not_mem_nil l)

theorem foldl_merge_eq_spec (d : Bool) :
    ∀ (L : List PyVal) (df : DataFrame),
      (∀ row ∈ df.data, row.length = df.columns.length) →
      L.Nodup →
      (∀ c ∈ L, 2 ≤ labelCount df.columns c) →
      (∀ c, 2 ≤ labelCount df.columns c → c ∈ L) →
      L.foldl (mergeNet d) df = mergeSpec df d
  | [], df, hlen, _, _, hcomp => by
      have hcnt : ∀ c, labelCount df.columns c ≤ 1 := by
        intro c
        by_contra h
        exact absurd (hcomp c (by omega)) (List.not_mem_nil c)
      rw [List.foldl_nil]
      exact (mergeSpec_eq_self d df hlen hcnt).symm
  | l :: L, df, hlen, hnd, hmem, hcomp => by
      rw [List.foldl_cons]
      have hcntl : 2 ≤ labelCount df.columns l := hmem l (List.mem_cons_self _ _)
      have hlen' := mergeNet_len d df l hlen
      have hcols' : (mergeNet d df l).columns = removeDupsOf l df.columns := rfl
      have hndL : L.Nodup := (List.nodup_cons.mp hnd).2
      have hlL : l ∉ L := (List.nodup_cons.mp hnd).1
      have hmem' : ∀ c ∈ L, 2 ≤ labelCount (mergeNet d df l).columns c := by
        intro c hc
        have hne : c ≠ l := fun h => hlL (h ▸ hc)
        rw [hcols', labelCount_removeDupsOf_ne hne df.columns]
        exact hmem c (List.mem_cons_of_mem _ hc)
      have hcomp' : ∀ c, 2 ≤ labelCount (mergeNet d df l).columns c → c ∈ L := by
        intro c hc
        rw [hcols'] at hc
        by_cases hne : c = l
        · subst hne
          have := labelCount_removeDupsOf_self c df.columns
          omega
        · rw [labelCount_removeDupsOf_ne hne df.columns] at hc
          rcases List.mem_cons.mp (hcomp c hc) with h | h
          · exact absurd h hne
          · exact h
      rw [foldl_merge_eq_spec d L (mergeNet d df l) hlen' hndL hmem' hcomp']
      exact merge_one_absorb d df l hlen hcntl

end EtlSpec
